import Mathlib

/-!
Verification development for a raycasting renderer and minimal combat-game
simulation (single C++ source, `src/main.cpp`).

The embedding has two layers, mirroring the program:

* Renderer (raycasting engine, sprite renderer): the C++ code is pure float
  arithmetic on the camera pose; it is embedded over `ℚ` (exact-real
  idealisation of `float`), with C++ `int(...)` casts modelled by truncation
  toward zero (`ratTrunc`) and C++ integer `/` by `Int.tdiv`.
  The float literal `1e30f` used as the "effectively infinite" per-step
  distance is modelled as `10^30`.

* Simulation (player movement, enemy AI, shooting, the per-frame tick): the
  C++ code uses `sqrt`/`acos`, so it is embedded over `ℝ`; definitions that
  mention real-number branching are marked `noncomputable` and concrete
  instances are evaluated with `norm_num`-style lemmas.

Grids are total functions `ℤ → ℤ → ℕ` (cell code, `0` = passable); the
in-range generated map always has solid borders, captured by `BordersSolid`.
-/

/-- Truncation toward zero of a rational, the semantics of a C++ `int(...)`
cast applied to a (real-idealised) `float`. -/
def ratTrunc (q : ℚ) : ℤ :=
  if 0 ≤ q then ⌊q⌋ else -⌊-q⌋

/-- Camera pose consumed by the renderer: player position, facing direction
and camera plane (fields of `Player` read by `renderScene`/`renderSprites`). -/
structure PoseQ where
  px : ℚ
  py : ℚ
  dx : ℚ
  dy : ℚ
  plx : ℚ
  ply : ℚ

/-- Camera-space x, `cameraX = 2.0f * x / RAY_WIDTH - 1.0f` with `RAY_WIDTH = 200`. -/
def colCameraX (x : ℕ) : ℚ :=
  2 * (x : ℚ) / 200 - 1

/-- Ray direction for view column `x`:
`rayDir = direction + plane * cameraX` (componentwise). -/
def colRay (p : PoseQ) (x : ℕ) : ℚ × ℚ :=
  (p.dx + p.plx * colCameraX x, p.dy + p.ply * colCameraX x)

/-- The `1e30f` sentinel used when a ray-direction component is zero. -/
def bigDelta : ℚ := 10 ^ 30

/-- Per-ray DDA constants: step directions and per-gridline distances
(`stepX`, `stepY`, `deltaDistX`, `deltaDistY`). -/
structure DDAIn where
  stepX : ℤ
  stepY : ℤ
  deltaX : ℚ
  deltaY : ℚ

/-- Mutable DDA state: current cell and running side distances
(`mapX`, `mapY`, `sideDistX`, `sideDistY`). -/
structure DDASt where
  mapX : ℤ
  mapY : ℤ
  sdX : ℚ
  sdY : ℚ

/-- Initial DDA constants and state for a ray cast from position
`(p.px, p.py)` with direction `rd`, as set up before the DDA loop:
`deltaDist* = (rayDir.* == 0) ? 1e30 : abs(1/rayDir.*)`, and `step*`,
`sideDist*` from the sign of the ray component. -/
def ddaInit (p : PoseQ) (rd : ℚ × ℚ) : DDAIn × DDASt :=
  let mapX := ratTrunc p.px
  let mapY := ratTrunc p.py
  let deltaX := if rd.1 = 0 then bigDelta else |1 / rd.1|
  let deltaY := if rd.2 = 0 then bigDelta else |1 / rd.2|
  let stepX : ℤ := if rd.1 < 0 then -1 else 1
  let sdX : ℚ := if rd.1 < 0 then (p.px - mapX) * deltaX else (mapX + 1 - p.px) * deltaX
  let stepY : ℤ := if rd.2 < 0 then -1 else 1
  let sdY : ℚ := if rd.2 < 0 then (p.py - mapY) * deltaY else (mapY + 1 - p.py) * deltaY
  (⟨stepX, stepY, deltaX, deltaY⟩, ⟨mapX, mapY, sdX, sdY⟩)

/-- One iteration of the `while (hit == 0)` DDA loop, with fuel.  Each
iteration steps the axis with the smaller running side distance (ties step
`y`, matching `if (sideDistX < sideDistY)`), then reports a hit exactly when
the new cell is inside the 24×24 grid bounds and its code is positive —
an out-of-bounds cell is NOT a hit and the loop keeps running, exactly as in
the source.  Returns the side (`false` = x was stepped, `true` = y was
stepped) and the post-step state at the hit, or `none` if the fuel runs out. -/
def ddaGo (map : ℤ → ℤ → ℕ) (ci : DDAIn) : ℕ → DDASt → Option (Bool × DDASt)
  | 0, _ => none
  | n + 1, ⟨mx, my, sx, sy⟩ =>
    if sx < sy then
      if 0 ≤ mx + ci.stepX ∧ 0 ≤ my ∧ mx + ci.stepX < 24 ∧ my < 24 ∧
          0 < map (mx + ci.stepX) my
      then some (false, ⟨mx + ci.stepX, my, sx + ci.deltaX, sy⟩)
      else ddaGo map ci n ⟨mx + ci.stepX, my, sx + ci.deltaX, sy⟩
    else
      if 0 ≤ mx ∧ 0 ≤ my + ci.stepY ∧ mx < 24 ∧ my + ci.stepY < 24 ∧
          0 < map mx (my + ci.stepY)
      then some (true, ⟨mx, my + ci.stepY, sx, sy + ci.deltaY⟩)
      else ddaGo map ci n ⟨mx, my + ci.stepY, sx, sy + ci.deltaY⟩

/-- Fuel given to every in-engine DDA walk.  44 steps suffice from any
non-border cell (proved below); 64 leaves slack. -/
def ddaFuel : ℕ := 64

/-- Full DDA run for an arbitrary ray direction from pose `p`. -/
def ddaRun (map : ℤ → ℤ → ℕ) (p : PoseQ) (rd : ℚ × ℚ) : Option (Bool × DDASt) :=
  ddaGo map (ddaInit p rd).1 ddaFuel (ddaInit p rd).2

/-- The DDA walk terminates (for some amount of fuel). -/
def ddaTerminates (map : ℤ → ℤ → ℕ) (p : PoseQ) (rd : ℚ × ℚ) : Prop :=
  ∃ n, (ddaGo map (ddaInit p rd).1 n (ddaInit p rd).2).isSome = true

/-- All in-range border cells of the 24×24 grid are solid — the world
generator writes `worldMap[x][y] = 1` on the whole border. -/
def BordersSolid (map : ℤ → ℤ → ℕ) : Prop :=
  ∀ x y : ℤ, 0 ≤ x → x < 24 → 0 ≤ y → y < 24 →
    (x = 0 ∨ x = 23 ∨ y = 0 ∨ y = 23) → map x y ≠ 0

/-- The concrete border-walls-only world map (the generated map before any
random interior obstacle is added); off-grid cells are irrelevant to the
embedded code, which always bounds-checks, and are set solid. -/
def map0 : ℤ → ℤ → ℕ := fun x y =>
  if x ≤ 0 ∨ y ≤ 0 ∨ 23 ≤ x ∨ 23 ≤ y then 1 else 0

/-- Remaining monotone steps before the walk's cell index reaches the border
band `{0, 23}` on each axis; a termination measure for the DDA loop. -/
def ddaDist (ci : DDAIn) (s : DDASt) : ℤ :=
  (if ci.stepX = 1 then 23 - s.mapX else s.mapX) +
    (if ci.stepY = 1 then 23 - s.mapY else s.mapY)

lemma ddaGo_isSome_of_interior (map : ℤ → ℤ → ℕ) (hb : BordersSolid map)
    (ci : DDAIn) (hsx : ci.stepX = 1 ∨ ci.stepX = -1)
    (hsy : ci.stepY = 1 ∨ ci.stepY = -1) :
    ∀ (n : ℕ) (s : DDASt), 1 ≤ s.mapX → s.mapX ≤ 22 → 1 ≤ s.mapY → s.mapY ≤ 22 →
      ddaDist ci s ≤ n → (ddaGo map ci n s).isSome = true := by
  have hdd : ∀ s : DDASt, 1 ≤ s.mapX → s.mapX ≤ 22 → 1 ≤ s.mapY → s.mapY ≤ 22 →
      2 ≤ ddaDist ci s := by
    intro s h1 h2 h3 h4
    unfold ddaDist
    rcases hsx with h | h <;> rcases hsy with h' | h' <;> rw [h, h'] <;> norm_num <;> omega
  intro n
  induction n with
  | zero =>
    intro s hx1 hx2 hy1 hy2 hm
    exact absurd (hdd s hx1 hx2 hy1 hy2) (by omega)
  | succ n ih =>
    rintro ⟨mx, my, sx, sy⟩ hx1 hx2 hy1 hy2 hm
    simp only at hx1 hx2 hy1 hy2
    have hmval : ddaDist ci ⟨mx, my, sx, sy⟩ =
        (if ci.stepX = 1 then 23 - mx else mx) + (if ci.stepY = 1 then 23 - my else my) := rfl
    rw [hmval] at hm
    unfold ddaGo
    by_cases hcmp : sx < sy
    · rw [if_pos hcmp]
      by_cases hhit : 0 ≤ mx + ci.stepX ∧ 0 ≤ my ∧ mx + ci.stepX < 24 ∧ my < 24 ∧
          0 < map (mx + ci.stepX) my
      · rw [if_pos hhit]; rfl
      · rw [if_neg hhit]
        have hin : 1 ≤ mx + ci.stepX ∧ mx + ci.stepX ≤ 22 := by
          by_contra hout
          refine hhit ⟨?_, by omega, ?_, by omega, ?_⟩
          · rcases hsx with h | h <;> omega
          · rcases hsx with h | h <;> omega
          · refine Nat.pos_of_ne_zero (hb (mx + ci.stepX) my ?_ ?_ (by omega) (by omega) ?_)
            · rcases hsx with h | h <;> omega
            · rcases hsx with h | h <;> omega
            · rcases hsx with h | h <;> omega
        refine ih ⟨mx + ci.stepX, my, sx + ci.deltaX, sy⟩
          (by exact hin.1) (by exact hin.2) (by exact hy1) (by exact hy2) ?_
        have hmval2 : ddaDist ci ⟨mx + ci.stepX, my, sx + ci.deltaX, sy⟩ =
            (if ci.stepX = 1 then 23 - (mx + ci.stepX) else mx + ci.stepX) +
              (if ci.stepY = 1 then 23 - my else my) := rfl
        rw [hmval2]
        rcases hsx with h | h <;> rcases hsy with h' | h' <;> rw [h, h'] at hm ⊢ <;>
          norm_num at hm ⊢ <;> omega
    · rw [if_neg hcmp]
      by_cases hhit : 0 ≤ mx ∧ 0 ≤ my + ci.stepY ∧ mx < 24 ∧ my + ci.stepY < 24 ∧
          0 < map mx (my + ci.stepY)
      · rw [if_pos hhit]; rfl
      · rw [if_neg hhit]
        have hin : 1 ≤ my + ci.stepY ∧ my + ci.stepY ≤ 22 := by
          by_contra hout
          refine hhit ⟨by omega, ?_, by omega, ?_, ?_⟩
          · rcases hsy with h | h <;> omega
          · rcases hsy with h | h <;> omega
          · refine Nat.pos_of_ne_zero (hb mx (my + ci.stepY) (by omega) (by omega) ?_ ?_ ?_)
            · rcases hsy with h | h <;> omega
            · rcases hsy with h | h <;> omega
            · rcases hsy with h | h <;> omega
        refine ih ⟨mx, my + ci.stepY, sx, sy + ci.deltaY⟩
          (by exact hx1) (by exact hx2) (by exact hin.1) (by exact hin.2) ?_
        have hmval2 : ddaDist ci ⟨mx, my + ci.stepY, sx, sy + ci.deltaY⟩ =
            (if ci.stepX = 1 then 23 - mx else mx) +
              (if ci.stepY = 1 then 23 - (my + ci.stepY) else my + ci.stepY) := rfl
        rw [hmval2]
        rcases hsx with h | h <;> rcases hsy with h' | h' <;> rw [h, h'] at hm ⊢ <;>
          norm_num at hm ⊢ <;> omega

lemma ddaInit_stepX (p : PoseQ) (rd : ℚ × ℚ) :
    (ddaInit p rd).1.stepX = 1 ∨ (ddaInit p rd).1.stepX = -1 := by
  unfold ddaInit
  by_cases h : rd.1 < 0 <;> simp [h]

lemma ddaInit_stepY (p : PoseQ) (rd : ℚ × ℚ) :
    (ddaInit p rd).1.stepY = 1 ∨ (ddaInit p rd).1.stepY = -1 := by
  unfold ddaInit
  by_cases h : rd.2 < 0 <;> simp [h]

lemma ddaInit_mapX (p : PoseQ) (rd : ℚ × ℚ) :
    (ddaInit p rd).2.mapX = ratTrunc p.px := rfl

lemma ddaInit_mapY (p : PoseQ) (rd : ℚ × ℚ) :
    (ddaInit p rd).2.mapY = ratTrunc p.py := rfl

/-- From any pose whose cell indices lie in the non-border band `[1, 22]`,
the DDA run with the standard fuel succeeds for every ray direction. -/
lemma ddaRun_isSome (map : ℤ → ℤ → ℕ) (hb : BordersSolid map) (p : PoseQ)
    (rd : ℚ × ℚ) (hx1 : 1 ≤ ratTrunc p.px) (hx2 : ratTrunc p.px ≤ 22)
    (hy1 : 1 ≤ ratTrunc p.py) (hy2 : ratTrunc p.py ≤ 22) :
    (ddaRun map p rd).isSome = true := by
  unfold ddaRun
  refine ddaGo_isSome_of_interior map hb _ (ddaInit_stepX p rd) (ddaInit_stepY p rd)
    ddaFuel _ ?_ ?_ ?_ ?_ ?_
  · rw [ddaInit_mapX]; exact hx1
  · rw [ddaInit_mapX]; exact hx2
  · rw [ddaInit_mapY]; exact hy1
  · rw [ddaInit_mapY]; exact hy2
  · unfold ddaDist ddaFuel
    rw [ddaInit_mapX, ddaInit_mapY]
    rcases ddaInit_stepX p rd with h | h <;> rcases ddaInit_stepY p rd with h' | h' <;>
      rw [h, h'] <;> norm_num <;> omega

/-- Once the cell index has escaped past the right edge (with a rightward
x-step), the DDA loop can never report a hit: off-grid cells are treated as
"no hit", not as solid. -/
lemma ddaGo_none_of_escaped (map : ℤ → ℤ → ℕ) (ci : DDAIn) (hstep : ci.stepX = 1) :
    ∀ (n : ℕ) (s : DDASt), 24 ≤ s.mapX → ddaGo map ci n s = none := by
  intro n
  induction n with
  | zero => intro s _; rfl
  | succ n ih =>
    rintro ⟨mx, my, sx, sy⟩ hx
    simp only at hx
    unfold ddaGo
    by_cases hcmp : sx < sy
    · rw [if_pos hcmp, if_neg (by rintro ⟨-, -, h3, -, -⟩; omega), ih]
      simp only [hstep]
      omega
    · rw [if_neg hcmp, if_neg (by rintro ⟨-, -, h3, -, -⟩; omega), ih]
      exact hx

/-- Result of the DDA walk for view column `x` of the raycasting pass. -/
def colHit (map : ℤ → ℤ → ℕ) (p : PoseQ) (x : ℕ) : Option (Bool × DDASt) :=
  ddaRun map p (colRay p x)

/-- Unclamped perpendicular wall distance for view column `x`:
`perpWallDist = sideDist(hit axis) - deltaDist(hit axis)` evaluated on the
post-step state at the hit (`0` when the walk runs out of fuel, which never
happens from a non-border cell). -/
def colPerpRaw (map : ℤ → ℤ → ℕ) (p : PoseQ) (x : ℕ) : ℚ :=
  match colHit map p x with
  | some (side, s) =>
      if side then s.sdY - (ddaInit p (colRay p x)).1.deltaY
      else s.sdX - (ddaInit p (colRay p x)).1.deltaX
  | none => 0

/-- Clamped perpendicular wall distance,
`perpWallDist = max(perpWallDist, 0.05f)`. -/
def colPerp (map : ℤ → ℤ → ℕ) (p : PoseQ) (x : ℕ) : ℚ :=
  max (colPerpRaw map p x) 0.05

/-- Rational model of `std::numeric_limits<float>::max()`, the sentinel the
depth buffer is reset to at the start of each raycasting pass
(`(2 - 2⁻²³)·2¹²⁷`; the spec calls this reset value "+infinity"). -/
def floatMaxQ : ℚ := 2 ^ 128 - 2 ^ 104

/-- The depth-buffer writes of the raycasting pass, processing view columns
`0 .. n-1`.  View column `x` writes its clamped perpendicular distance into
pixel columns `x * RAY_SCALE .. (x+1) * RAY_SCALE - 1` (with `RAY_SCALE = 4`
and a `screenX >= SCREEN_WIDTH` break), exactly the loop
`for (screenX = x * RAY_SCALE; screenX < (x + 1) * RAY_SCALE; screenX++)
   zBuffer[screenX] = perpWallDist;`. -/
def scanZ (map : ℤ → ℤ → ℕ) (p : PoseQ) : ℕ → (ℤ → ℚ) → (ℤ → ℚ)
  | 0, z => z
  | n + 1, z =>
    fun c =>
      if 4 * (n : ℤ) ≤ c ∧ c < 4 * (n : ℤ) + 4 ∧ c < 800 then colPerp map p n
      else scanZ map p n z c

/-- The raycasting pass starts from a buffer holding `floatMaxQ` in every
slot and processes all 200 view columns. -/
def zBufAfter (map : ℤ → ℤ → ℕ) (p : PoseQ) : ℤ → ℚ :=
  scanZ map p 200 (fun _ => floatMaxQ)

lemma scanZ_eval (map : ℤ → ℤ → ℕ) (p : PoseQ) :
    ∀ (n : ℕ), n ≤ 200 → ∀ (z : ℤ → ℚ) (c : ℤ), 0 ≤ c → c < 4 * n →
      scanZ map p n z c = colPerp map p (c.toNat / 4) := by
  intro n
  induction n with
  | zero => intro h z c hc0 hc; omega
  | succ n ih =>
    intro h z c hc0 hc
    unfold scanZ
    by_cases hrange : 4 * (n : ℤ) ≤ c ∧ c < 4 * (n : ℤ) + 4 ∧ c < 800
    · rw [if_pos hrange]
      have : c.toNat / 4 = n := by omega
      rw [this]
    · rw [if_neg hrange]
      refine ih (by omega) z c hc0 ?_
      omega

/-- Fractional wall-hit coordinate along the non-stepped axis:
`wallX = (side == 0 ? posY + perp*rayDir.y : posX + perp*rayDir.x)` followed
by `wallX -= floor(wallX)` (the C++ `floor` function, not an `int` cast). -/
def colWallX (map : ℤ → ℤ → ℕ) (p : PoseQ) (x : ℕ) : ℚ :=
  match colHit map p x with
  | some (side, _) =>
      let w : ℚ :=
        if side then p.px + colPerp map p x * (colRay p x).1
        else p.py + colPerp map p x * (colRay p x).2
      w - ⌊w⌋
  | none => 0

/-- Unmirrored horizontal texture coordinate `texX = int(wallX * CELL_SIZE)`
with `CELL_SIZE = 64`. -/
def colTexRaw (map : ℤ → ℤ → ℕ) (p : PoseQ) (x : ℕ) : ℤ :=
  ratTrunc (colWallX map p x * 64)

/-- Final horizontal texture coordinate after the two mirroring branches:
`if (side == 0 && rayDir.x > 0) texX = CELL_SIZE - texX - 1;`
`if (side == 1 && rayDir.y < 0) texX = CELL_SIZE - texX - 1;`. -/
def colTexX (map : ℤ → ℤ → ℕ) (p : PoseQ) (x : ℕ) : ℤ :=
  match colHit map p x with
  | some (side, _) =>
      let t0 := colTexRaw map p x
      let t1 := if side = false ∧ 0 < (colRay p x).1 then 64 - t0 - 1 else t0
      if side = true ∧ (colRay p x).2 < 0 then 64 - t1 - 1 else t1
  | none => 0

/-- The texture coordinate as the specification describes it: mirrored
exactly when the ray travels in the POSITIVE direction on the hit axis, for
both sides.  (Written from the spec sentence, to be compared with
`colTexX`, which is written from the source.) -/
def colTexXSpec (map : ℤ → ℤ → ℕ) (p : PoseQ) (x : ℕ) : ℤ :=
  match colHit map p x with
  | some (side, _) =>
      let t0 := colTexRaw map p x
      if (side = false ∧ 0 < (colRay p x).1) ∨ (side = true ∧ 0 < (colRay p x).2)
      then 64 - t0 - 1 else t0
  | none => 0

/-- The procedurally generated enemy texture (`createTextures`): a red blob.
`dx = x - CELL_SIZE/2`, `dy = y - CELL_SIZE/2`;
`sqrt(dx²+dy²) < CELL_SIZE/3` (= 21, integer division) gives opaque red
`0xFFFF0000`, `< CELL_SIZE/2` (= 32) gives translucent red `0x88FF0000`,
else `0` — the square-root comparisons are stated equivalently on squares. -/
def texEnemy (tx ty : ℤ) : ℕ :=
  let dx := tx - 32
  let dy := ty - 32
  if dx * dx + dy * dy < 441 then 0xFFFF0000
  else if dx * dx + dy * dy < 1024 then 0x88FF0000
  else 0

/-- Camera-space sprite coordinate `transformX` of `renderSprites`:
`invDet * (dir.y * spriteX - dir.x * spriteY)` where
`invDet = 1 / (plane.x * dir.y - dir.x * plane.y)` and
`(spriteX, spriteY)` is the enemy position relative to the player. -/
def transfX (p : PoseQ) (ex ey : ℚ) : ℚ :=
  (1 / (p.plx * p.dy - p.dx * p.ply)) * (p.dy * (ex - p.px) - p.dx * (ey - p.py))

/-- Camera-space sprite depth `transformY` of `renderSprites`:
`invDet * (-plane.y * spriteX + plane.x * spriteY)`; this is the value the
per-column wall-occlusion test compares against the depth buffer. -/
def transfY (p : PoseQ) (ex ey : ℚ) : ℚ :=
  (1 / (p.plx * p.dy - p.dx * p.ply)) * (-p.ply * (ex - p.px) + p.plx * (ey - p.py))

/-- Screen-space sprite center,
`spriteScreenX = int((SCREEN_WIDTH / 2) * (1 + transformX / transformY))`. -/
def sprScreenX (tX tY : ℚ) : ℤ :=
  ratTrunc (400 * (1 + tX / tY))

/-- Projected sprite size `abs(int(SCREEN_HEIGHT / transformY))` before
clamping (height and width use the same formula). -/
def sprSize (tY : ℚ) : ℤ :=
  |ratTrunc (600 / tY)|

/-- Clamped height, `if (spriteHeight > SCREEN_HEIGHT * 2) spriteHeight = SCREEN_HEIGHT * 2`. -/
def sprH (tY : ℚ) : ℤ :=
  if sprSize tY > 1200 then 1200 else sprSize tY

/-- Clamped width, `if (spriteWidth > SCREEN_WIDTH * 2) spriteWidth = SCREEN_WIDTH * 2`. -/
def sprW (tY : ℚ) : ℤ :=
  if sprSize tY > 1600 then 1600 else sprSize tY

/-- Unclipped sprite left edge `-spriteWidth / 2 + spriteScreenX` (C++ `/` on
`int` truncates toward zero, `Int.tdiv`); the texture-column mapping uses
this unclipped value. -/
def sprLeft (tX tY : ℚ) : ℤ :=
  Int.tdiv (-sprW tY) 2 + sprScreenX tX tY

/-- Clipped vertical draw bounds `drawStartY`/`drawEndY`. -/
def sprDSY (tY : ℚ) : ℤ :=
  if Int.tdiv (-sprH tY) 2 + 300 < 0 then 0 else Int.tdiv (-sprH tY) 2 + 300

def sprDEY (tY : ℚ) : ℤ :=
  if Int.tdiv (sprH tY) 2 + 300 ≥ 600 then 599 else Int.tdiv (sprH tY) 2 + 300

/-- Clipped horizontal draw bounds `drawStartX`/`drawEndX`. -/
def sprDSX (tX tY : ℚ) : ℤ :=
  if sprLeft tX tY < 0 then 0 else sprLeft tX tY

def sprDEX (tX tY : ℚ) : ℤ :=
  if Int.tdiv (sprW tY) 2 + sprScreenX tX tY ≥ 800 then 799
  else Int.tdiv (sprW tY) 2 + sprScreenX tX tY

/-- Pixel step: `int step = 1; if (spriteHeight > SCREEN_HEIGHT / 2) step = 2;`. -/
def sprStep (tY : ℚ) : ℤ :=
  if sprH tY > 300 then 2 else 1

/-- Index list of the C++ loop `for (v = start; v < stop; v += step)`
(for a positive `step`). -/
def loopIdx (start stop step : ℤ) : List ℤ :=
  (List.range (Int.toNat (Int.tdiv (stop - start + step - 1) step))).map
    (fun k => start + step * (k : ℤ))

/-- Frame-buffer writes performed by the inner `y` loop of `renderSprites`
at sampled column `x`: skip off-screen rows, compute
`texY = (y - drawStartY) * CELL_SIZE / spriteHeight`, sample the enemy
texture, and if the texel's alpha byte is non-zero write `(x, y)` plus — when
the coarse step is active — the duplicate backfill writes into the 2×2
neighborhood, each write listed as `(column, row, color)`. -/
def sprTexX (tX tY : ℚ) (x : ℤ) : ℤ :=
  Int.tdiv ((x - sprLeft tX tY) * 64) (sprW tY)

def sprTexY (tY : ℚ) (y : ℤ) : ℤ :=
  Int.tdiv ((y - sprDSY tY) * 64) (sprH tY)

/-- The texel sampled at screen pixel `(x, y)` of the sprite. -/
def sprTexel (tX tY : ℚ) (x y : ℤ) : ℕ :=
  texEnemy (sprTexX tX tY x) (sprTexY tY y)

def rowWrites (tX tY : ℚ) (x y : ℤ) : List (ℤ × ℤ × ℕ) :=
  if y < 0 ∨ 600 ≤ y then []
  else if sprTexel tX tY x y &&& 0xFF000000 ≠ 0 then
    (x, y, sprTexel tX tY x y) ::
      (if 1 < sprStep tY then
        (if x + 1 < sprDEX tX tY ∧ x + 1 < 800 then [(x + 1, y, sprTexel tX tY x y)]
         else []) ++
          (if y + 1 < sprDEY tY ∧ y + 1 < 600 then [(x, y + 1, sprTexel tX tY x y)]
           else []) ++
            (if x + 1 < sprDEX tX tY ∧ y + 1 < sprDEY tY ∧ x + 1 < 800 ∧ y + 1 < 600
             then [(x + 1, y + 1, sprTexel tX tY x y)] else [])
      else [])
  else []

/-- Frame-buffer writes of the outer `x` loop body at sampled column `x`:
skip off-screen columns, skip the whole column when the sprite is behind the
wall recorded in the depth buffer (`if (transformY > zBuffer[x]) continue`),
else run the `y` loop. -/
def colWrites (tX tY : ℚ) (zB : ℤ → ℚ) (x : ℤ) : List (ℤ × ℤ × ℕ) :=
  if x < 0 ∨ 800 ≤ x then []
  else if tY > zB x then []
  else (loopIdx (sprDSY tY) (sprDEY tY) (sprStep tY)).flatMap (rowWrites tX tY x)

/-- All frame-buffer writes made by `renderSprites` for a single sprite at
world position `(ex, ey)` (the per-sprite body run for each survivor of the
cull/sort): camera-space transform, behind-camera rejection
(`transformY <= 0.1`), screen-space projection and clipping, wholly
off-screen rejection, then the sampled double loop with coarse stepping. -/
def spriteWrites (p : PoseQ) (ex ey : ℚ) (zB : ℤ → ℚ) : List (ℤ × ℤ × ℕ) :=
  let tX := transfX p ex ey
  let tY := transfY p ex ey
  if tY ≤ 0.1 then []
  else if sprDEX tX tY < 0 ∨ sprDSX tX tY ≥ 800 then []
  else (loopIdx (sprDSX tX tY) (sprDEX tX tY) (sprStep tY)).flatMap
    (colWrites tX tY zB)

lemma rowWrites_col (tX tY : ℚ) (x y : ℤ) (w : ℤ × ℤ × ℕ)
    (hw : w ∈ rowWrites tX tY x y) : w.1 = x ∨ w.1 = x + 1 := by
  unfold rowWrites at hw
  by_cases h1 : y < 0 ∨ 600 ≤ y
  · rw [if_pos h1] at hw; exact absurd hw (List.not_mem_nil w)
  · rw [if_neg h1] at hw
    by_cases h2 : sprTexel tX tY x y &&& 0xFF000000 ≠ 0
    · rw [if_pos h2] at hw
      rcases List.mem_cons.mp hw with h | h
      · left; rw [h]
      · by_cases h3 : 1 < sprStep tY
        · rw [if_pos h3] at h
          rcases List.mem_append.mp h with h | h
          · rcases List.mem_append.mp h with h | h
            · by_cases h4 : x + 1 < sprDEX tX tY ∧ x + 1 < 800
              · rw [if_pos h4] at h
                right; rw [List.mem_singleton.mp h]
              · rw [if_neg h4] at h; exact absurd h (List.not_mem_nil w)
            · by_cases h4 : y + 1 < sprDEY tY ∧ y + 1 < 600
              · rw [if_pos h4] at h
                left; rw [List.mem_singleton.mp h]
              · rw [if_neg h4] at h; exact absurd h (List.not_mem_nil w)
          · by_cases h4 : x + 1 < sprDEX tX tY ∧ y + 1 < sprDEY tY ∧ x + 1 < 800 ∧
                y + 1 < 600
            · rw [if_pos h4] at h
              right; rw [List.mem_singleton.mp h]
            · rw [if_neg h4] at h; exact absurd h (List.not_mem_nil w)
        · rw [if_neg h3] at h; exact absurd h (List.not_mem_nil w)
    · rw [if_neg h2] at hw; exact absurd hw (List.not_mem_nil w)

/-- Every write the sprite renderer makes for one sprite comes from a sampled
column `x` that passed the wall-depth test (`transformY <= zBuffer[x]`), and
lands in column `x` or — as a coarse-step backfill — in column `x + 1`. -/
lemma spriteWrites_from_sampled (p : PoseQ) (ex ey : ℚ) (zB : ℤ → ℚ)
    (w : ℤ × ℤ × ℕ) (hw : w ∈ spriteWrites p ex ey zB) :
    ∃ x : ℤ, transfY p ex ey ≤ zB x ∧ (w.1 = x ∨ w.1 = x + 1) := by
  unfold spriteWrites at hw
  by_cases h1 : transfY p ex ey ≤ 0.1
  · rw [if_pos h1] at hw; exact absurd hw (List.not_mem_nil w)
  · rw [if_neg h1] at hw
    by_cases h2 : sprDEX (transfX p ex ey) (transfY p ex ey) < 0 ∨
        sprDSX (transfX p ex ey) (transfY p ex ey) ≥ 800
    · rw [if_pos h2] at hw; exact absurd hw (List.not_mem_nil w)
    · rw [if_neg h2] at hw
      obtain ⟨x, -, hcol⟩ := List.mem_flatMap.mp hw
      unfold colWrites at hcol
      by_cases h3 : x < 0 ∨ 800 ≤ x
      · rw [if_pos h3] at hcol; exact absurd hcol (List.not_mem_nil w)
      · rw [if_neg h3] at hcol
        by_cases h4 : transfY p ex ey > zB x
        · rw [if_pos h4] at hcol; exact absurd hcol (List.not_mem_nil w)
        · rw [if_neg h4] at hcol
          obtain ⟨y, -, hrow⟩ := List.mem_flatMap.mp hcol
          exact ⟨x, le_of_not_lt h4, rowWrites_col _ _ x y w hrow⟩

open Classical

/-- Truncation toward zero of a real, the semantics of a C++ `int(...)` cast
in the simulation layer. -/
noncomputable def rtrunc (r : ℝ) : ℤ :=
  if 0 ≤ r then ⌊r⌋ else -⌊-r⌋

/-- Vector length `Vec2::length`: `sqrt(x*x + y*y)`. -/
noncomputable def vlen (x y : ℝ) : ℝ :=
  Real.sqrt (x * x + y * y)

/-- Normalization `Vec2::normalize`: divide by the length when it exceeds `0.0001`, else
the zero vector. -/
noncomputable def normVec (x y : ℝ) : ℝ × ℝ :=
  if vlen x y > 0.0001 then (x / vlen x y, y / vlen x y) else (0, 0)

/-- The `Player` state: position, direction, camera plane, speeds, health and
weapon flag. -/
structure PlayerS where
  px : ℝ
  py : ℝ
  dx : ℝ
  dy : ℝ
  plx : ℝ
  ply : ℝ
  moveSpeed : ℝ
  rotSpeed : ℝ
  health : ℤ
  hasWeapon : Bool

/-- The `Enemy` state: position, speed, health, dead flag. -/
structure EnemyS where
  x : ℝ
  y : ℝ
  speed : ℝ
  health : ℤ
  isDead : Bool

/-- Candidate x coordinate computed by `Game::movePlayer`:
`newPos.x += direction.x*forward*moveSpeed` (when `forward != 0`) and
`newPos.x += direction.y*strafe*moveSpeed` (when `strafe != 0`). -/
noncomputable def moveNewX (fw st : ℝ) (p : PlayerS) : ℝ :=
  p.px + (if fw ≠ 0 then p.dx * fw * p.moveSpeed else 0) +
    (if st ≠ 0 then p.dy * st * p.moveSpeed else 0)

/-- Candidate y coordinate computed by `Game::movePlayer`. -/
noncomputable def moveNewY (fw st : ℝ) (p : PlayerS) : ℝ :=
  p.py + (if fw ≠ 0 then p.dy * fw * p.moveSpeed else 0) +
    (if st ≠ 0 then -p.dx * st * p.moveSpeed else 0)

/-- The collision-test offset `(forward > 0 ? wallBuffer : -wallBuffer)` with
`wallBuffer = 0.1`; note it depends only on the sign of the `forward` input,
not on the travel direction of the axis being tested. -/
noncomputable def moveBuf (fw : ℝ) : ℝ :=
  if fw > 0 then 0.1 else -0.1

/-- The committed x coordinate of `Game::movePlayer`: the candidate is kept
iff the cell at the buffered candidate x paired with the current y is
passable. -/
noncomputable def moveCommitX (map : ℤ → ℤ → ℕ) (fw st : ℝ) (p : PlayerS) : ℝ :=
  if map (rtrunc (moveNewX fw st p + moveBuf fw)) (rtrunc p.py) = 0 then moveNewX fw st p
  else p.px

/-- The committed y coordinate of `Game::movePlayer`; its test reads the
just-updated x coordinate, as in the source. -/
noncomputable def moveCommitY (map : ℤ → ℤ → ℕ) (fw st : ℝ) (p : PlayerS) : ℝ :=
  if map (rtrunc (moveCommitX map fw st p)) (rtrunc (moveNewY fw st p + moveBuf fw)) = 0
  then moveNewY fw st p else p.py

/-- Player movement `Game::movePlayer`: each axis of the candidate position is committed
independently iff the grid cell at the buffered destination (paired with the
other axis's coordinate) is passable. -/
noncomputable def movePlayer (map : ℤ → ℤ → ℕ) (fw st : ℝ) (p : PlayerS) : PlayerS :=
  {p with px := moveCommitX map fw st p, py := moveCommitY map fw st p}

/-- Quantized angle-table index of `fastSin`/`fastCos`:
`int(angle * ANGLE_TABLE_SIZE / (2.0f * M_PI)) % ANGLE_TABLE_SIZE` (C++ `%`
truncates, `Int.tmod`), made non-negative. -/
noncomputable def quantIdx (a : ℝ) : ℤ :=
  if Int.tmod (rtrunc (a * 1024 / (2 * Real.pi))) 1024 < 0 then
    Int.tmod (rtrunc (a * 1024 / (2 * Real.pi))) 1024 + 1024
  else Int.tmod (rtrunc (a * 1024 / (2 * Real.pi))) 1024

/-- Table lookup `fastSin`: the sine table holds `sin(2π i / ANGLE_TABLE_SIZE)`. -/
noncomputable def fastSinR (a : ℝ) : ℝ :=
  Real.sin (2 * Real.pi * (quantIdx a : ℝ) / 1024)

/-- Table lookup `fastCos`: the cosine table holds `cos(2π i / ANGLE_TABLE_SIZE)`, looked
up at the same quantized index as `fastSin`. -/
noncomputable def fastCosR (a : ℝ) : ℝ :=
  Real.cos (2 * Real.pi * (quantIdx a : ℝ) / 1024)

/-- Rotation `Player::rotate`: rotate direction and plane by the same table-quantized
angle (the source saves `oldDirX`/`oldPlaneX` so both components use the
pre-rotation values). -/
noncomputable def rotatePlayer (a : ℝ) (p : PlayerS) : PlayerS :=
  {p with
    dx := p.dx * fastCosR a - p.dy * fastSinR a,
    dy := p.dx * fastSinR a + p.dy * fastCosR a,
    plx := p.plx * fastCosR a - p.ply * fastSinR a,
    ply := p.plx * fastSinR a + p.ply * fastCosR a}

/-- Candidate enemy position `newPos` of `Enemy::update`:
`position + toPlayer.normalize() * speed` (componentwise). -/
noncomputable def enemyNewX (p : PlayerS) (e : EnemyS) : ℝ :=
  e.x + (normVec (p.px - e.x) (p.py - e.y)).1 * e.speed

noncomputable def enemyNewY (p : PlayerS) (e : EnemyS) : ℝ :=
  e.y + (normVec (p.px - e.x) (p.py - e.y)).2 * e.speed

/-- Committed enemy x: kept iff `worldMap[int(newPos.x)][int(position.y)]`
is passable (no wall buffer for enemies). -/
noncomputable def enemyCommitX (map : ℤ → ℤ → ℕ) (p : PlayerS) (e : EnemyS) : ℝ :=
  if map (rtrunc (enemyNewX p e)) (rtrunc e.y) = 0 then enemyNewX p e else e.x

/-- Committed enemy y: its test reads the just-updated x, as in the source. -/
noncomputable def enemyCommitY (map : ℤ → ℤ → ℕ) (p : PlayerS) (e : EnemyS) : ℝ :=
  if map (rtrunc (enemyCommitX map p e)) (rtrunc (enemyNewY p e)) = 0 then enemyNewY p e
  else e.y

/-- Enemy AI `Enemy::update`: dead enemies return immediately; otherwise move toward
the player at `speed` along the normalized direction when the distance
exceeds `0.5`, committing each axis independently iff the destination cell is
passable. -/
noncomputable def enemyUpdate (map : ℤ → ℤ → ℕ) (p : PlayerS) (e : EnemyS) : EnemyS :=
  if e.isDead then e
  else if vlen (p.px - e.x) (p.py - e.y) > 0.5 then
    {e with x := enemyCommitX map p e, y := enemyCommitY map p e}
  else e

/-- The firing test of `Game::shootWeapon` for one enemy: the angle between
the facing direction and the normalized direction to the enemy (via
`acos` of their dot product) is below `0.26` rad and the distance is below
`8.0`. -/
noncomputable def hitCond (p : PlayerS) (e : EnemyS) : Prop :=
  Real.arccos (p.dx * ((e.x - p.px) / vlen (e.x - p.px) (e.y - p.py)) +
      p.dy * ((e.y - p.py) / vlen (e.x - p.px) (e.y - p.py))) < 0.26 ∧
    vlen (e.x - p.px) (e.y - p.py) < 8

/-- A living enemy that the fire test selects. -/
noncomputable def shootQual (p : PlayerS) (e : EnemyS) : Prop :=
  e.isDead = false ∧ hitCond p e

/-- Damage application `enemy.health -= 10; if (enemy.health <= 0) enemy.isDead = true;`. -/
def damageEnemy (e : EnemyS) : EnemyS :=
  if e.health - 10 ≤ 0 then {e with health := e.health - 10, isDead := true}
  else {e with health := e.health - 10}

/-- Weapon fire `Game::shootWeapon`: walk the enemy collection in order, skip the dead,
damage the first enemy passing the fire test and stop (`break`). -/
noncomputable def shootList (p : PlayerS) : List EnemyS → List EnemyS
  | [] => []
  | e :: rest =>
    if e.isDead then e :: shootList p rest
    else if hitCond p e then damageEnemy e :: rest
    else e :: shootList p rest

/-- The enemy half-rate phase of `Game::update`: update each enemy in order
and count one point of contact damage for each post-update living enemy
within distance `0.5` of the player.  Returns the updated list and the total
damage subtracted from the player's health. -/
noncomputable def enemyPhase (map : ℤ → ℤ → ℕ) (p : PlayerS) :
    List EnemyS → List EnemyS × ℤ
  | [] => ([], 0)
  | e :: rest =>
    ((enemyUpdate map p e) :: (enemyPhase map p rest).1,
      (if vlen (p.px - (enemyUpdate map p e).x) (p.py - (enemyUpdate map p e).y) < 0.5 ∧
          (enemyUpdate map p e).isDead = false then 1 else 0) +
        (enemyPhase map p rest).2)

/-- Input snapshot consumed by one tick: WASD key states, mouse capture flag
and horizontal mouse delta, and the fire button. -/
structure InputS where
  keyW : Bool
  keyS : Bool
  keyA : Bool
  keyD : Bool
  captured : Bool
  mouseDx : ℝ
  fire : Bool

/-- Whole simulation state mutated by `Game::update` (the world map is
immutable and passed separately). -/
structure GameS where
  player : PlayerS
  enemies : List EnemyS
  gameOver : Bool
  frameCount : ℕ

/-- A conditionally applied player transformation, the shape of each
`if (GetAsyncKeyState(..)) movePlayer(..)` statement of `Game::update`. -/
noncomputable def condMove (c : Bool) (f : PlayerS → PlayerS) (p : PlayerS) : PlayerS :=
  if c then f p else p

/-- The player pose after the movement phase of `Game::update`: four
conditional `movePlayer` calls for W/S/A/D in order, then mouse rotation by
`-dx * 0.01` when the mouse is captured. -/
noncomputable def movedPlayer (map : ℤ → ℤ → ℕ) (inp : InputS) (g : GameS) : PlayerS :=
  condMove inp.captured (rotatePlayer (-inp.mouseDx * 0.01))
    (condMove inp.keyD (movePlayer map 0 1)
      (condMove inp.keyA (movePlayer map 0 (-1))
        (condMove inp.keyS (movePlayer map (-1) 0)
          (condMove inp.keyW (movePlayer map 1 0) g.player))))

/-- The enemy half-rate phase of the tick: runs when the incremented frame
counter is even (`++frameCount % 2 == 0`), else leaves enemies unchanged and
deals no contact damage. -/
noncomputable def tickPhase (map : ℤ → ℤ → ℕ) (inp : InputS) (g : GameS) :
    List EnemyS × ℤ :=
  if (g.frameCount + 1) % 2 = 0 then enemyPhase map (movedPlayer map inp g) g.enemies
  else (g.enemies, 0)

/-- The player state at the end of the tick body: moved pose with contact
damage subtracted from health. -/
noncomputable def tickPlayer (map : ℤ → ℤ → ℕ) (inp : InputS) (g : GameS) : PlayerS :=
  {movedPlayer map inp g with
    health := (movedPlayer map inp g).health - (tickPhase map inp g).2}

/-- The enemy collection at the end of the tick body: weapon fire resolved
when the fire button is held and the player has the weapon. -/
noncomputable def tickEnemies (map : ℤ → ℤ → ℕ) (inp : InputS) (g : GameS) :
    List EnemyS :=
  if inp.fire = true ∧ (tickPlayer map inp g).hasWeapon = true then
    shootList (tickPlayer map inp g) (tickPhase map inp g).1
  else (tickPhase map inp g).1

/-- One simulation tick `Game::update`: early-return when the game is over;
movement, rotation, the enemy phase with contact damage, weapon fire, and
finally `gameOver = true` when health has dropped to or below zero. -/
noncomputable def gameUpdate (map : ℤ → ℤ → ℕ) (inp : InputS) (g : GameS) : GameS :=
  if g.gameOver then g
  else
    { player := tickPlayer map inp g,
      enemies := tickEnemies map inp g,
      gameOver := if (tickPlayer map inp g).health ≤ 0 then true else g.gameOver,
      frameCount := g.frameCount + 1 }

/-- One tick under some input. -/
def gameStep (map : ℤ → ℤ → ℕ) (g g2 : GameS) : Prop :=
  ∃ inp, g2 = gameUpdate map inp g

/-- Any number of ticks under any input sequence. -/
def GameSteps (map : ℤ → ℤ → ℕ) : GameS → GameS → Prop :=
  Relation.ReflTransGen (gameStep map)

/-- A continuous position lies inside the covered area of a solid grid cell
(the cell selected by the C++ `int(...)` indexing). -/
noncomputable def inSolid (map : ℤ → ℤ → ℕ) (x y : ℝ) : Prop :=
  map (rtrunc x) (rtrunc y) ≠ 0

/-- Number of living enemies in a collection. -/
def countLiving (es : List EnemyS) : ℤ :=
  ((es.filter fun e => !e.isDead).length : ℤ)

lemma movePlayer_px (map : ℤ → ℤ → ℕ) (fw st : ℝ) (p : PlayerS) :
    (movePlayer map fw st p).px = moveCommitX map fw st p := rfl

lemma movePlayer_py (map : ℤ → ℤ → ℕ) (fw st : ℝ) (p : PlayerS) :
    (movePlayer map fw st p).py = moveCommitY map fw st p := rfl

lemma rtrunc_nonneg (r : ℝ) (h : 0 ≤ r) : rtrunc r = ⌊r⌋ := if_pos h

/-- The per-axis travel of the committed candidate agrees in sign with the
`forward` input (whose sign selects the buffer direction) and stays below the
buffer complement. -/
noncomputable def dirMatch (fw d : ℝ) : Prop :=
  if 0 < fw then 0 ≤ d ∧ d ≤ 0.9 else -0.9 ≤ d ∧ d ≤ 0

/-- When the axis travel direction matches the buffer direction (and the
coordinate stays at least 1), the buffered test cell is the destination cell,
unless the move does not change cells at all. -/
lemma trunc_buf (fw pz nz : ℝ) (hp : 1 ≤ pz) (hm : dirMatch fw (nz - pz)) :
    rtrunc (nz + moveBuf fw) = rtrunc nz ∨ rtrunc nz = rtrunc pz := by
  unfold dirMatch at hm
  unfold moveBuf
  by_cases hf : 0 < fw
  · rw [if_pos hf] at hm ⊢
    obtain ⟨h0, h9⟩ := hm
    rw [rtrunc_nonneg pz (by linarith), rtrunc_nonneg nz (by linarith),
      rtrunc_nonneg (nz + 0.1) (by linarith)]
    by_cases he : ⌊nz⌋ = ⌊pz⌋
    · right; exact he
    · left
      have hmono : ⌊pz⌋ ≤ ⌊nz⌋ := Int.floor_le_floor (by linarith)
      have hlt : ⌊pz⌋ + 1 ≤ ⌊nz⌋ := by omega
      have hpf : pz < ⌊pz⌋ + 1 := Int.lt_floor_add_one pz
      have hnf : (⌊nz⌋ : ℝ) ≤ nz := Int.floor_le nz
      refine Int.floor_eq_iff.mpr ⟨by linarith, ?_⟩
      have : ((⌊pz⌋ : ℝ) + 1) ≤ (⌊nz⌋ : ℝ) := by exact_mod_cast hlt
      linarith
  · rw [if_neg hf] at hm ⊢
    obtain ⟨h9, h0⟩ := hm
    rw [rtrunc_nonneg pz (by linarith), rtrunc_nonneg nz (by linarith),
      rtrunc_nonneg (nz + -0.1) (by linarith)]
    by_cases he : ⌊nz⌋ = ⌊pz⌋
    · right; exact he
    · left
      have hmono : ⌊nz⌋ ≤ ⌊pz⌋ := Int.floor_le_floor (by linarith)
      have hlt : ⌊nz⌋ + 1 ≤ ⌊pz⌋ := by omega
      have hpf : (⌊pz⌋ : ℝ) ≤ pz := Int.floor_le pz
      have hnf : nz < ⌊nz⌋ + 1 := Int.lt_floor_add_one nz
      refine Int.floor_eq_iff.mpr ⟨?_, by linarith⟩
      have : ((⌊nz⌋ : ℝ) + 1) ≤ (⌊pz⌋ : ℝ) := by exact_mod_cast hlt
      linarith

/-- Player movement cannot enter a solid cell as long as each axis's actual
travel direction matches the sign of the `forward` input that selects the
wall-buffer direction. -/
lemma movePlayer_not_inSolid (map : ℤ → ℤ → ℕ) (fw st : ℝ) (p : PlayerS)
    (h0 : ¬ inSolid map p.px p.py) (hx1 : 1 ≤ p.px) (hy1 : 1 ≤ p.py)
    (hmx : dirMatch fw (moveNewX fw st p - p.px))
    (hmy : dirMatch fw (moveNewY fw st p - p.py)) :
    ¬ inSolid map (movePlayer map fw st p).px (movePlayer map fw st p).py := by
  unfold inSolid at h0 ⊢
  rw [not_not] at h0
  rw [not_not, movePlayer_px, movePlayer_py]
  have hxgoal : map (rtrunc (moveCommitX map fw st p)) (rtrunc p.py) = 0 := by
    unfold moveCommitX
    by_cases hx : map (rtrunc (moveNewX fw st p + moveBuf fw)) (rtrunc p.py) = 0
    · rw [if_pos hx]
      rcases trunc_buf fw p.px (moveNewX fw st p) hx1 hmx with he | he
      · rw [← he]; exact hx
      · rw [he]; exact h0
    · rw [if_neg hx]; exact h0
  unfold moveCommitY
  by_cases hy : map (rtrunc (moveCommitX map fw st p))
      (rtrunc (moveNewY fw st p + moveBuf fw)) = 0
  · rw [if_pos hy]
    rcases trunc_buf fw p.py (moveNewY fw st p) hy1 hmy with he | he
    · rw [← he]; exact hy
    · rw [he]; exact hxgoal
  · rw [if_neg hy]; exact hxgoal

/-- Enemy movement never enters a solid cell: each axis's test is exactly the
destination cell paired with the other (current or just-committed) axis
coordinate. -/
lemma enemyUpdate_not_inSolid (map : ℤ → ℤ → ℕ) (p : PlayerS) (e : EnemyS)
    (h0 : ¬ inSolid map e.x e.y) :
    ¬ inSolid map (enemyUpdate map p e).x (enemyUpdate map p e).y := by
  unfold inSolid at h0 ⊢
  rw [not_not] at h0
  rw [not_not]
  unfold enemyUpdate
  by_cases hd : e.isDead
  · rw [if_pos hd]; exact h0
  · rw [if_neg hd]
    by_cases hdist : vlen (p.px - e.x) (p.py - e.y) > 0.5
    · rw [if_pos hdist]
      show map (rtrunc (enemyCommitX map p e)) (rtrunc (enemyCommitY map p e)) = 0
      have hxgoal : map (rtrunc (enemyCommitX map p e)) (rtrunc e.y) = 0 := by
        unfold enemyCommitX
        by_cases hx : map (rtrunc (enemyNewX p e)) (rtrunc e.y) = 0
        · rw [if_pos hx]; exact hx
        · rw [if_neg hx]; exact h0
      unfold enemyCommitY
      by_cases hy : map (rtrunc (enemyCommitX map p e)) (rtrunc (enemyNewY p e)) = 0
      · rw [if_pos hy]; exact hy
      · rw [if_neg hy]; exact hxgoal
    · rw [if_neg hdist]; exact h0

lemma enemyUpdate_dead (map : ℤ → ℤ → ℕ) (p : PlayerS) (e : EnemyS)
    (h : e.isDead = true) : enemyUpdate map p e = e := by
  unfold enemyUpdate
  rw [if_pos h]

lemma enemyUpdate_isDead (map : ℤ → ℤ → ℕ) (p : PlayerS) (e : EnemyS) :
    (enemyUpdate map p e).isDead = e.isDead := by
  unfold enemyUpdate
  by_cases hd : e.isDead = true
  · rw [if_pos hd]
  · rw [if_neg hd]
    by_cases h2 : vlen (p.px - e.x) (p.py - e.y) > 0.5
    · rw [if_pos h2]
    · rw [if_neg h2]

lemma bool_not_true {b : Bool} (h : ¬ b = true) : b = false := by
  cases b
  · rfl
  · exact absurd rfl h

lemma shootList_of_none (p : PlayerS) :
    ∀ es : List EnemyS, (∀ e ∈ es, ¬ shootQual p e) → shootList p es = es := by
  intro es
  induction es with
  | nil => intro _; rfl
  | cons e rest ih =>
    intro h
    unfold shootList
    by_cases hd : e.isDead = true
    · rw [if_pos hd, ih fun a ha => h a (List.mem_cons_of_mem e ha)]
    · rw [if_neg hd]
      have hnc : ¬ hitCond p e := fun hc =>
        h e (List.mem_cons_self e rest) ⟨bool_not_true hd, hc⟩
      rw [if_neg hnc, ih fun a ha => h a (List.mem_cons_of_mem e ha)]

lemma shootList_first (p : PlayerS) :
    ∀ (es : List EnemyS) (i : ℕ) (e : EnemyS), es[i]? = some e → shootQual p e →
      (∀ j, j < i → ∀ a, es[j]? = some a → ¬ shootQual p a) →
      shootList p es = es.set i (damageEnemy e) := by
  intro es
  induction es with
  | nil => intro i e hi; simp at hi
  | cons a rest ih =>
    intro i e hi hq hno
    match i with
    | 0 =>
      have ha : a = e := by simpa using hi
      subst ha
      unfold shootList
      rw [if_neg (by rw [hq.1]; exact Bool.false_ne_true), if_pos hq.2]
      rfl
    | i + 1 =>
      have hna : ¬ shootQual p a := hno 0 (Nat.succ_pos i) a (by simp)
      have hrest : shootList p rest = rest.set i (damageEnemy e) :=
        ih i e (by simpa using hi) hq fun j hj b hb =>
          hno (j + 1) (by omega) b (by simpa using hb)
      unfold shootList
      by_cases hd : a.isDead = true
      · rw [if_pos hd, hrest]
        rfl
      · rw [if_neg hd]
        have hnc : ¬ hitCond p a := fun hc => hna ⟨bool_not_true hd, hc⟩
        rw [if_neg hnc, hrest]
        rfl

lemma shootList_dead_preserved (p : PlayerS) :
    ∀ (es : List EnemyS) (i : ℕ) (e : EnemyS), es[i]? = some e → e.isDead = true →
      (shootList p es)[i]? = some e := by
  intro es
  induction es with
  | nil => intro i e hi; simp at hi
  | cons a rest ih =>
    intro i e hi hd
    match i with
    | 0 =>
      have ha : a = e := by simpa using hi
      subst ha
      unfold shootList
      rw [if_pos hd]
      simp
    | i + 1 =>
      have hi2 : rest[i]? = some e := by simpa using hi
      unfold shootList
      by_cases hda : a.isDead = true
      · rw [if_pos hda]
        simpa using ih i e hi2 hd
      · rw [if_neg hda]
        by_cases hc : hitCond p a
        · rw [if_pos hc]
          simpa using hi2
        · rw [if_neg hc]
          simpa using ih i e hi2 hd

lemma enemyPhase_fst (map : ℤ → ℤ → ℕ) (p : PlayerS) :
    ∀ es : List EnemyS, (enemyPhase map p es).1 = es.map (enemyUpdate map p) := by
  intro es
  induction es with
  | nil => rfl
  | cons e rest ih =>
    show enemyUpdate map p e :: (enemyPhase map p rest).1 = _
    rw [ih]
    rfl

lemma enemyPhase_dmg_nonneg (map : ℤ → ℤ → ℕ) (p : PlayerS) :
    ∀ es : List EnemyS, 0 ≤ (enemyPhase map p es).2 := by
  intro es
  induction es with
  | nil => exact le_refl 0
  | cons e rest ih =>
    show 0 ≤ (if _ ∧ _ then (1:ℤ) else 0) + (enemyPhase map p rest).2
    have : (0:ℤ) ≤ (if vlen (p.px - (enemyUpdate map p e).x)
        (p.py - (enemyUpdate map p e).y) < 0.5 ∧ (enemyUpdate map p e).isDead = false
      then (1:ℤ) else 0) := by positivity
    omega

lemma enemyPhase_dmg_le (map : ℤ → ℤ → ℕ) (p : PlayerS) :
    ∀ es : List EnemyS, (enemyPhase map p es).2 ≤ countLiving es := by
  intro es
  induction es with
  | nil => exact le_refl 0
  | cons e rest ih =>
    show (if _ ∧ _ then (1:ℤ) else 0) + (enemyPhase map p rest).2 ≤ countLiving (e :: rest)
    have hc : countLiving (e :: rest) =
        (if e.isDead = false then 1 else 0) + countLiving rest := by
      unfold countLiving
      rcases hd : e.isDead with hv | hv
      · simp [List.filter_cons, hd]
        omega
      · simp [List.filter_cons, hd]
    rw [hc]
    have hd1 : (if vlen (p.px - (enemyUpdate map p e).x)
        (p.py - (enemyUpdate map p e).y) < 0.5 ∧ (enemyUpdate map p e).isDead = false
      then (1:ℤ) else 0) ≤ (if e.isDead = false then 1 else 0) := by
      by_cases hdd : e.isDead = false
      · rw [if_pos hdd]
        split <;> omega
      · rw [if_neg hdd]
        rw [if_neg ?_]
        · intro hand
          rw [enemyUpdate_isDead] at hand
          exact hdd hand.2
    omega

lemma enemyPhase_dmg_all_dead (map : ℤ → ℤ → ℕ) (p : PlayerS) :
    ∀ es : List EnemyS, (∀ e ∈ es, e.isDead = true) → (enemyPhase map p es).2 = 0 := by
  intro es
  induction es with
  | nil => intro _; rfl
  | cons e rest ih =>
    intro h
    show (if _ ∧ _ then (1:ℤ) else 0) + (enemyPhase map p rest).2 = 0
    rw [ih fun a ha => h a (List.mem_cons_of_mem e ha), if_neg ?_]
    · omega
    · intro hand
      rw [enemyUpdate_isDead] at hand
      rw [h e (List.mem_cons_self e rest)] at hand
      exact absurd hand.2 (by decide)

lemma countLiving_nonneg (es : List EnemyS) : 0 ≤ countLiving es := by
  unfold countLiving
  positivity

lemma movePlayer_health (map : ℤ → ℤ → ℕ) (fw st : ℝ) (p : PlayerS) :
    (movePlayer map fw st p).health = p.health := rfl

lemma rotatePlayer_health (a : ℝ) (p : PlayerS) :
    (rotatePlayer a p).health = p.health := rfl

lemma movePlayer_hasWeapon (map : ℤ → ℤ → ℕ) (fw st : ℝ) (p : PlayerS) :
    (movePlayer map fw st p).hasWeapon = p.hasWeapon := rfl

lemma rotatePlayer_hasWeapon (a : ℝ) (p : PlayerS) :
    (rotatePlayer a p).hasWeapon = p.hasWeapon := rfl

lemma condMove_health (c : Bool) (f : PlayerS → PlayerS)
    (hf : ∀ q, (f q).health = q.health) (p : PlayerS) :
    (condMove c f p).health = p.health := by
  unfold condMove
  cases c
  · rw [if_neg (by decide)]
  · rw [if_pos rfl]
    exact hf p

lemma movedPlayer_health (map : ℤ → ℤ → ℕ) (inp : InputS) (g : GameS) :
    (movedPlayer map inp g).health = g.player.health := by
  unfold movedPlayer
  rw [condMove_health _ _ fun q => rotatePlayer_health _ q,
    condMove_health _ _ fun q => movePlayer_health _ _ _ q,
    condMove_health _ _ fun q => movePlayer_health _ _ _ q,
    condMove_health _ _ fun q => movePlayer_health _ _ _ q,
    condMove_health _ _ fun q => movePlayer_health _ _ _ q]

lemma tickPlayer_health (map : ℤ → ℤ → ℕ) (inp : InputS) (g : GameS) :
    (tickPlayer map inp g).health = g.player.health - (tickPhase map inp g).2 := by
  show (movedPlayer map inp g).health - (tickPhase map inp g).2 = _
  rw [movedPlayer_health]

lemma gameUpdate_frozen (map : ℤ → ℤ → ℕ) (inp : InputS) (g : GameS)
    (h : g.gameOver = true) : gameUpdate map inp g = g := by
  unfold gameUpdate
  rw [if_pos h]

lemma gameUpdate_player (map : ℤ → ℤ → ℕ) (inp : InputS) (g : GameS)
    (h : g.gameOver = false) :
    (gameUpdate map inp g).player = tickPlayer map inp g := by
  unfold gameUpdate
  rw [if_neg (by rw [h]; exact Bool.false_ne_true)]

lemma gameUpdate_enemies (map : ℤ → ℤ → ℕ) (inp : InputS) (g : GameS)
    (h : g.gameOver = false) :
    (gameUpdate map inp g).enemies = tickEnemies map inp g := by
  unfold gameUpdate
  rw [if_neg (by rw [h]; exact Bool.false_ne_true)]

lemma gameUpdate_gameOver (map : ℤ → ℤ → ℕ) (inp : InputS) (g : GameS)
    (h : g.gameOver = false) :
    (gameUpdate map inp g).gameOver =
      (if (tickPlayer map inp g).health ≤ 0 then true else g.gameOver) := by
  unfold gameUpdate
  rw [if_neg (by rw [h]; exact Bool.false_ne_true)]

/-- Once the terminal state is reached, any chain of further ticks leaves the
whole game state unchanged. -/
lemma gameSteps_frozen (map : ℤ → ℤ → ℕ) (g t : GameS) (hg : GameSteps map g t)
    (h : g.gameOver = true) : t = g := by
  induction hg with
  | refl => rfl
  | tail hstep hlast ih =>
    obtain ⟨inp, rfl⟩ := hlast
    rw [ih, gameUpdate_frozen map inp g h]

/-- Health can only decrease across a tick, and by at most the number of
living enemies (dead enemies deal no contact damage; nothing else touches
health). -/
lemma gameUpdate_health_bounds (map : ℤ → ℤ → ℕ) (inp : InputS) (g : GameS) :
    (gameUpdate map inp g).player.health ≤ g.player.health ∧
      g.player.health - countLiving g.enemies ≤ (gameUpdate map inp g).player.health := by
  by_cases h : g.gameOver = true
  · rw [gameUpdate_frozen map inp g h]
    have := countLiving_nonneg g.enemies
    omega
  · have hf : g.gameOver = false := bool_not_true h
    rw [gameUpdate_player map inp g hf, tickPlayer_health]
    unfold tickPhase
    by_cases hfc : (g.frameCount + 1) % 2 = 0
    · rw [if_pos hfc]
      have h1 := enemyPhase_dmg_nonneg map (movedPlayer map inp g) g.enemies
      have h2 := enemyPhase_dmg_le map (movedPlayer map inp g) g.enemies
      omega
    · rw [if_neg hfc]
      have := countLiving_nonneg g.enemies
      show g.player.health - 0 ≤ _ ∧ _ ≤ g.player.health - 0
      omega

/-- A dead enemy's entry (position, health, flag) survives one tick
unchanged: `Enemy::update` returns early, the enemy phase re-inserts it
as-is, and `shootWeapon` skips it. -/
lemma gameUpdate_dead_entry (map : ℤ → ℤ → ℕ) (inp : InputS) (g : GameS)
    (i : ℕ) (e : EnemyS) (hi : g.enemies[i]? = some e) (hd : e.isDead = true) :
    (gameUpdate map inp g).enemies[i]? = some e := by
  by_cases h : g.gameOver = true
  · rw [gameUpdate_frozen map inp g h]
    exact hi
  · rw [gameUpdate_enemies map inp g (bool_not_true h)]
    have hphase : (tickPhase map inp g).1[i]? = some e := by
      unfold tickPhase
      by_cases hfc : (g.frameCount + 1) % 2 = 0
      · rw [if_pos hfc]
        rw [enemyPhase_fst, List.getElem?_map, hi]
        show some (enemyUpdate map (movedPlayer map inp g) e) = some e
        rw [enemyUpdate_dead _ _ _ hd]
      · rw [if_neg hfc]
        exact hi
    unfold tickEnemies
    by_cases hfire : inp.fire = true ∧ (tickPlayer map inp g).hasWeapon = true
    · rw [if_pos hfire]
      exact shootList_dead_preserved _ _ i e hphase hd
    · rw [if_neg hfire]
      exact hphase

/-- Dead enemies stay byte-for-byte identical along any chain of ticks. -/
lemma gameSteps_dead_entry (map : ℤ → ℤ → ℕ) (g t : GameS) (hg : GameSteps map g t)
    (i : ℕ) (e : EnemyS) (hi : g.enemies[i]? = some e) (hd : e.isDead = true) :
    t.enemies[i]? = some e := by
  induction hg with
  | refl => exact hi
  | tail hstep hlast ih =>
    obtain ⟨inp, rfl⟩ := hlast
    exact gameUpdate_dead_entry map inp _ i e ih hd

/-- When every enemy is dead, a tick leaves player health unchanged: dead
enemies deal no contact damage. -/
lemma gameUpdate_health_all_dead (map : ℤ → ℤ → ℕ) (inp : InputS) (g : GameS)
    (hall : ∀ e ∈ g.enemies, e.isDead = true) :
    (gameUpdate map inp g).player.health = g.player.health := by
  by_cases h : g.gameOver = true
  · rw [gameUpdate_frozen map inp g h]
  · rw [gameUpdate_player map inp g (bool_not_true h), tickPlayer_health]
    have hz : (tickPhase map inp g).2 = 0 := by
      unfold tickPhase
      by_cases hfc : (g.frameCount + 1) % 2 = 0
      · rw [if_pos hfc]
        exact enemyPhase_dmg_all_dead map _ g.enemies hall
      · rw [if_neg hfc]
    rw [hz]
    omega

/-- Angle between two vectors via the inverse cosine of the normalized dot
product (the quantity the spec's field-of-view invariant is about). -/
noncomputable def angleBetween (ux uy vx vy : ℝ) : ℝ :=
  Real.arccos ((ux * vx + uy * vy) / (vlen ux uy * vlen vx vy))

lemma fastCosSinSq (a : ℝ) : fastCosR a ^ 2 + fastSinR a ^ 2 = 1 := by
  unfold fastCosR fastSinR
  exact Real.cos_sq_add_sin_sq _

lemma rotatePlayer_dx (a : ℝ) (p : PlayerS) :
    (rotatePlayer a p).dx = p.dx * fastCosR a - p.dy * fastSinR a := rfl

lemma rotatePlayer_dy (a : ℝ) (p : PlayerS) :
    (rotatePlayer a p).dy = p.dx * fastSinR a + p.dy * fastCosR a := rfl

lemma rotatePlayer_plx (a : ℝ) (p : PlayerS) :
    (rotatePlayer a p).plx = p.plx * fastCosR a - p.ply * fastSinR a := rfl

lemma rotatePlayer_ply (a : ℝ) (p : PlayerS) :
    (rotatePlayer a p).ply = p.plx * fastSinR a + p.ply * fastCosR a := rfl

/-- One rotation is an exact rotation matrix (its sine/cosine come from the
same quantized table angle, so `c² + s² = 1` holds exactly in the real
idealisation): both vector magnitudes and their dot product are preserved. -/
lemma rotate_invariants (a : ℝ) (p : PlayerS) :
    vlen (rotatePlayer a p).dx (rotatePlayer a p).dy = vlen p.dx p.dy ∧
      vlen (rotatePlayer a p).plx (rotatePlayer a p).ply = vlen p.plx p.ply ∧
        (rotatePlayer a p).dx * (rotatePlayer a p).plx +
            (rotatePlayer a p).dy * (rotatePlayer a p).ply =
          p.dx * p.plx + p.dy * p.ply := by
  have hcs := fastCosSinSq a
  refine ⟨?_, ?_, ?_⟩
  · unfold vlen
    rw [rotatePlayer_dx, rotatePlayer_dy]
    congr 1
    linear_combination (p.dx * p.dx + p.dy * p.dy) * hcs
  · unfold vlen
    rw [rotatePlayer_plx, rotatePlayer_ply]
    congr 1
    linear_combination (p.plx * p.plx + p.ply * p.ply) * hcs
  · rw [rotatePlayer_dx, rotatePlayer_dy, rotatePlayer_plx, rotatePlayer_ply]
    linear_combination (p.dx * p.plx + p.dy * p.ply) * hcs

/-- A whole sequence of rotation operations applied in order. -/
noncomputable def rotSeq (as : List ℝ) (p : PlayerS) : PlayerS :=
  as.foldl (fun q a => rotatePlayer a q) p

lemma rotSeq_invariants (as : List ℝ) :
    ∀ p : PlayerS,
      vlen (rotSeq as p).dx (rotSeq as p).dy = vlen p.dx p.dy ∧
        vlen (rotSeq as p).plx (rotSeq as p).ply = vlen p.plx p.ply ∧
          (rotSeq as p).dx * (rotSeq as p).plx + (rotSeq as p).dy * (rotSeq as p).ply =
            p.dx * p.plx + p.dy * p.ply := by
  induction as with
  | nil => intro p; exact ⟨rfl, rfl, rfl⟩
  | cons a rest ih =>
    intro p
    have hstep := rotate_invariants a p
    have htail := ih (rotatePlayer a p)
    refine ⟨?_, ?_, ?_⟩
    · rw [show rotSeq (a :: rest) p = rotSeq rest (rotatePlayer a p) from rfl,
        htail.1, hstep.1]
    · rw [show rotSeq (a :: rest) p = rotSeq rest (rotatePlayer a p) from rfl,
        htail.2.1, hstep.2.1]
    · rw [show rotSeq (a :: rest) p = rotSeq rest (rotatePlayer a p) from rfl,
        htail.2.2, hstep.2.2]

/-! Shared helpers for concrete evaluation. -/

lemma rtrunc_eval (r : ℝ) (n : ℤ) (h0 : 0 ≤ r) (h1 : (n : ℝ) ≤ r) (h2 : r < n + 1) :
    rtrunc r = n := by
  unfold rtrunc
  rw [if_pos h0]
  exact Int.floor_eq_iff.mpr ⟨h1, h2⟩

lemma condMove_false (f : PlayerS → PlayerS) (p : PlayerS) : condMove false f p = p := rfl

lemma sqrt009 : Real.sqrt 0.09 = 0.3 := by
  rw [show (0.09:ℝ) = 0.3 ^ 2 by norm_num, Real.sqrt_sq (by norm_num)]

lemma ddaGoStep (map : ℤ → ℤ → ℕ) (ci : DDAIn) (n : ℕ) (mx my : ℤ) (sx sy : ℚ) :
    ddaGo map ci (n + 1) ⟨mx, my, sx, sy⟩ =
      if sx < sy then
        if 0 ≤ mx + ci.stepX ∧ 0 ≤ my ∧ mx + ci.stepX < 24 ∧ my < 24 ∧
            0 < map (mx + ci.stepX) my
        then some (false, ⟨mx + ci.stepX, my, sx + ci.deltaX, sy⟩)
        else ddaGo map ci n ⟨mx + ci.stepX, my, sx + ci.deltaX, sy⟩
      else
        if 0 ≤ mx ∧ 0 ≤ my + ci.stepY ∧ mx < 24 ∧ my + ci.stepY < 24 ∧
            0 < map mx (my + ci.stepY)
        then some (true, ⟨mx, my + ci.stepY, sx, sy + ci.deltaY⟩)
        else ddaGo map ci n ⟨mx, my + ci.stepY, sx, sy + ci.deltaY⟩ := rfl

lemma bordersSolid_map0 : BordersSolid map0 := by
  intro x y hx0 hx24 hy0 hy24 hor
  unfold map0
  rw [if_pos (by omega)]
  exact Nat.one_ne_zero

/-! Concrete poses and states used by witnesses and counterexamples. -/

/-- A camera pose in the interior cell (5,5). -/
def pose3 : PoseQ := ⟨5.5, 5.5, -1, 0, 0, 0.66⟩

/-- A camera strictly inside the grid rectangle but standing inside the
right border wall cell (column 23). -/
def pose4 : PoseQ := ⟨23.5, 12.5, 1, 0, 0, 0.66⟩

/-! Claim C3. -/

/-- Claim C3, counterexample to the claim as stated: the camera at
`(23.5, 12.5)` is strictly inside the 24×24 grid, yet the DDA walk for the
rightward ray `(1, 0)` never terminates for any amount of fuel — after the
first step the cell index leaves the grid and the loop has no exit, because
an out-of-bounds cell is treated as "no hit" rather than as a boundary hit. -/
theorem c3_counterexample :
    (0 < pose4.px ∧ pose4.px < 24 ∧ 0 < pose4.py ∧ pose4.py < 24) ∧
      ¬ ddaTerminates map0 pose4 (1, 0) := by
  constructor
  · norm_num [pose4]
  · rintro ⟨n, hn⟩
    have hinit : ddaInit pose4 (1, 0) =
        (⟨1, 1, 1, bigDelta⟩, ⟨23, 12, 1/2, 5 * 10 ^ 29⟩) := by
      norm_num [ddaInit, ratTrunc, bigDelta, pose4]
    rw [hinit] at hn
    cases n with
    | zero => exact absurd hn (by decide)
    | succ m =>
      rw [ddaGoStep] at hn
      rw [if_pos (by norm_num [bigDelta])] at hn
      rw [if_neg (by rintro ⟨-, -, h3, -, -⟩; norm_num at h3)] at hn
      rw [ddaGo_none_of_escaped map0 _ rfl m _ (by norm_num)] at hn
      exact absurd hn (by decide)

/-- Claim C3 (amended): from any camera pose whose cell indices lie in the
non-border band `[1, 22]` of a grid with solid borders, the DDA walk
terminates within the fixed fuel (64 steps) for every ray direction —
hitting an in-bounds wall cell at the latest on the border, so the ray never
leaves the grid; the out-of-bounds case of the loop is unreachable from such
poses. -/
theorem c3_amended (map : ℤ → ℤ → ℕ) (p : PoseQ) (rd : ℚ × ℚ)
    (hb : BordersSolid map) (hx1 : 1 ≤ ratTrunc p.px) (hx2 : ratTrunc p.px ≤ 22)
    (hy1 : 1 ≤ ratTrunc p.py) (hy2 : ratTrunc p.py ≤ 22) :
    (ddaRun map p rd).isSome = true ∧ ddaTerminates map p rd := by
  have h := ddaRun_isSome map hb p rd hx1 hx2 hy1 hy2
  exact ⟨h, ⟨ddaFuel, h⟩⟩

/-- Claim C3, witness: the amended theorem applied to the border-walls map
and the concrete interior pose `(5.5, 5.5)` with the westward ray. -/
theorem c3_amended_witness :
    BordersSolid map0 ∧ 1 ≤ ratTrunc pose3.px ∧ ratTrunc pose3.px ≤ 22 ∧
      (ddaRun map0 pose3 (-1, 0)).isSome = true ∧ ddaTerminates map0 pose3 (-1, 0) := by
  have h1 : ratTrunc pose3.px = 5 := by norm_num [ratTrunc, pose3]
  have h2 : ratTrunc pose3.py = 5 := by norm_num [ratTrunc, pose3]
  have h := c3_amended map0 pose3 (-1, 0) bordersSolid_map0
    (by rw [h1]; norm_num) (by rw [h1]; norm_num) (by rw [h2]; norm_num)
    (by rw [h2]; norm_num)
  exact ⟨bordersSolid_map0, by rw [h1]; norm_num, by rw [h1]; norm_num, h.1, h.2⟩

/-! Claim C4. -/

/-- Claim C4 (confirmed): after the raycasting pass, every pixel column
`c < 800` of the depth buffer holds exactly the perpendicular wall distance
computed by the DDA walk for the reduced-resolution view column `c / 4`
covering it, clamped below by `0.05` — and this is independent of the
buffer's initial contents (each slot is overwritten), which the pass resets
to the float-max sentinel (`zBufAfter` starts from `floatMaxQ`, the spec's
"+infinity").  The DDA walk behind every slot really completes
(`colHit` is `some`).  Hypotheses: solid borders and a camera in a non-border
cell, the situation in which the pass is reachable at all. -/
theorem c4_depth_buffer (map : ℤ → ℤ → ℕ) (p : PoseQ) (hb : BordersSolid map)
    (hx1 : 1 ≤ ratTrunc p.px) (hx2 : ratTrunc p.px ≤ 22)
    (hy1 : 1 ≤ ratTrunc p.py) (hy2 : ratTrunc p.py ≤ 22) (c : ℤ)
    (hc0 : 0 ≤ c) (hc : c < 800) :
    zBufAfter map p c = max (colPerpRaw map p (c.toNat / 4)) 0.05 ∧
      (∀ z0 : ℤ → ℚ, scanZ map p 200 z0 c = zBufAfter map p c) ∧
      (colHit map p (c.toNat / 4)).isSome = true := by
  have heval : ∀ z0 : ℤ → ℚ, scanZ map p 200 z0 c =
      max (colPerpRaw map p (c.toNat / 4)) 0.05 := fun z0 =>
    scanZ_eval map p 200 (le_refl 200) z0 c hc0 (by omega)
  refine ⟨heval _, ?_, ?_⟩
  · intro z0
    unfold zBufAfter
    rw [heval z0, heval _]
  · exact ddaRun_isSome map hb p _ hx1 hx2 hy1 hy2

/-- Claim C4, witness: the theorem applied to the border-walls map and the
interior pose `(5.5, 5.5)`, at pixel column 333 (covered by view column 83). -/
theorem c4_depth_buffer_witness :
    BordersSolid map0 ∧
      zBufAfter map0 pose3 333 = max (colPerpRaw map0 pose3 83) 0.05 ∧
        (colHit map0 pose3 83).isSome = true := by
  have h1 : ratTrunc pose3.px = 5 := by norm_num [ratTrunc, pose3]
  have h2 : ratTrunc pose3.py = 5 := by norm_num [ratTrunc, pose3]
  have h := c4_depth_buffer map0 pose3 bordersSolid_map0
    (by rw [h1]; norm_num) (by rw [h1]; norm_num) (by rw [h2]; norm_num)
    (by rw [h2]; norm_num) 333 (by norm_num) (by norm_num)
  exact ⟨bordersSolid_map0, h.1, h.2.2⟩

/-! Claim C6. -/

/-- Claim C6 (confirmed): a tick taken in the terminal state is a complete
no-op (the whole game state, player pose and health and all enemy state, is
returned unchanged); a tick taken in a live state ends in the terminal state
exactly when the player's health at the end of that tick is zero or below
(so a tick ending with health 1 or more does not terminate); and once the
terminal state holds, any chain of further ticks leaves the state frozen. -/
theorem c6_terminal (map : ℤ → ℤ → ℕ) (inp : InputS) (g : GameS) :
    (g.gameOver = true → gameUpdate map inp g = g) ∧
      (g.gameOver = false →
        ((gameUpdate map inp g).gameOver = true ↔
          (gameUpdate map inp g).player.health ≤ 0)) ∧
      (∀ t, GameSteps map g t → g.gameOver = true → t = g) := by
  refine ⟨fun h => gameUpdate_frozen map inp g h, fun h => ?_,
    fun t ht h => gameSteps_frozen map g t ht h⟩
  rw [gameUpdate_gameOver map inp g h, gameUpdate_player map inp g h]
  by_cases hh : (tickPlayer map inp g).health ≤ 0
  · rw [if_pos hh]
    exact ⟨fun _ => hh, fun _ => rfl⟩
  · rw [if_neg hh, h]
    exact ⟨fun hf => absurd hf Bool.false_ne_true, fun hc => absurd hc hh⟩

/-- All-false input snapshot (no keys, mouse not captured, no fire). -/
def inp0 : InputS := ⟨false, false, false, false, false, 0, false⟩

/-- A live player at full health used by several concrete states. -/
def pw : PlayerS := ⟨5.5, 5.5, 1, 0, 0, 0.66, 0.1, 0.05, 100, true⟩

/-- A game state already in the terminal state. -/
def gT : GameS := ⟨pw, [], true, 7⟩

/-- A live game state. -/
def gA : GameS := ⟨pw, [], false, 0⟩

/-- Claim C6, witness: the theorem applied to a concrete terminal state
(whose tick is a no-op) and a concrete live state (whose termination is
equivalent to its post-tick health being non-positive). -/
theorem c6_terminal_witness :
    gT.gameOver = true ∧ gameUpdate map0 inp0 gT = gT ∧
      gA.gameOver = false ∧
        ((gameUpdate map0 inp0 gA).gameOver = true ↔
          (gameUpdate map0 inp0 gA).player.health ≤ 0) := by
  exact ⟨rfl, (c6_terminal map0 inp0 gT).1 rfl, rfl, (c6_terminal map0 inp0 gA).2.1 rfl⟩

/-! Claim C7. -/

/-- Claim C7 (confirmed): the rotation operation preserves the magnitude of
the direction vector, the magnitude of the camera-plane vector, their dot
product, and hence the angle between them — exactly, in the real
idealisation, because `fastSin`/`fastCos` look up the sine and cosine of the
same quantized table angle, so the rotation matrix is exactly orthogonal;
consequently the invariants hold under any sequence of rotations
(`rotSeq`), keeping the field of view constant. -/
theorem c7_rotation (a : ℝ) (p : PlayerS) :
    (vlen (rotatePlayer a p).dx (rotatePlayer a p).dy = vlen p.dx p.dy ∧
      vlen (rotatePlayer a p).plx (rotatePlayer a p).ply = vlen p.plx p.ply ∧
      angleBetween (rotatePlayer a p).dx (rotatePlayer a p).dy
          (rotatePlayer a p).plx (rotatePlayer a p).ply =
        angleBetween p.dx p.dy p.plx p.ply) ∧
    (∀ as : List ℝ,
      vlen (rotSeq as p).dx (rotSeq as p).dy = vlen p.dx p.dy ∧
        vlen (rotSeq as p).plx (rotSeq as p).ply = vlen p.plx p.ply ∧
        angleBetween (rotSeq as p).dx (rotSeq as p).dy
            (rotSeq as p).plx (rotSeq as p).ply =
          angleBetween p.dx p.dy p.plx p.ply) := by
  constructor
  · obtain ⟨h1, h2, h3⟩ := rotate_invariants a p
    exact ⟨h1, h2, by unfold angleBetween; rw [h1, h2, h3]⟩
  · intro as
    obtain ⟨h1, h2, h3⟩ := rotSeq_invariants as p
    exact ⟨h1, h2, by unfold angleBetween; rw [h1, h2, h3]⟩

/-! Claim C10. -/

/-- Claim C10 (confirmed): along any chain of ticks, an enemy that is dead at
the start keeps exactly its entry — position, health and flag — at every
later state (the dead flag is monotone and the whole record frozen: the AI
returns early, the enemy phase re-inserts it unchanged, and weapon fire
skips it); moreover dead enemies deal no contact damage: a state whose
enemies are all dead takes no damage on the next tick, and in general the
per-tick damage is bounded by the number of LIVING enemies. -/
theorem c10_dead_frozen (map : ℤ → ℤ → ℕ) (g t : GameS) (hsteps : GameSteps map g t) :
    (∀ (i : ℕ) (e : EnemyS), g.enemies[i]? = some e → e.isDead = true →
        t.enemies[i]? = some e) ∧
      (∀ inp : InputS, (∀ e ∈ t.enemies, e.isDead = true) →
        (gameUpdate map inp t).player.health = t.player.health) ∧
      (∀ inp : InputS,
        t.player.health - countLiving t.enemies ≤ (gameUpdate map inp t).player.health) := by
  exact ⟨fun i e hi hd => gameSteps_dead_entry map g t hsteps i e hi hd,
    fun inp hall => gameUpdate_health_all_dead map inp t hall,
    fun inp => (gameUpdate_health_bounds map inp t).2⟩

/-- A dead enemy entry used by the C10 witness. -/
def deadE : EnemyS := ⟨3, 3, 0.03, 0, true⟩

/-- A live game state containing one dead enemy. -/
def gD : GameS := ⟨pw, [deadE], false, 0⟩

/-- Claim C10, witness: after one concrete tick from `gD`, the dead enemy's
entry is unchanged, and (via the reflexive chain) a tick from the all-dead
state leaves health unchanged. -/
theorem c10_dead_frozen_witness :
    gD.enemies[0]? = some deadE ∧ deadE.isDead = true ∧
      (gameUpdate map0 inp0 gD).enemies[0]? = some deadE ∧
        (gameUpdate map0 inp0 gD).player.health = gD.player.health := by
  have hstep : GameSteps map0 gD (gameUpdate map0 inp0 gD) :=
    Relation.ReflTransGen.single ⟨inp0, rfl⟩
  refine ⟨by simp [gD], rfl, ?_, ?_⟩
  · exact (c10_dead_frozen map0 gD _ hstep).1 0 deadE (by simp [gD]) rfl
  · refine (c10_dead_frozen map0 gD gD Relation.ReflTransGen.refl).2.1 inp0 ?_
    intro e he
    have : e = deadE := by simpa [gD] using he
    rw [this]
    rfl

/-! Claim C8. -/

/-- Claim C8 (amended): across any tick the player's integer health never
increases (so it stays at or below its initial 100), and it decreases by at
most the number of living enemies — dead enemies deal no contact damage.  It
is NOT bounded below by zero: on the tick that triggers game over it can go
negative (see the counterexample), after which the state is frozen. -/
theorem c8_health_bounds (map : ℤ → ℤ → ℕ) (inp : InputS) (g : GameS) :
    (gameUpdate map inp g).player.health ≤ g.player.health ∧
      g.player.health - countLiving g.enemies ≤ (gameUpdate map inp g).player.health :=
  gameUpdate_health_bounds map inp g

/-- Player one hit away from death, facing west. -/
noncomputable def p8 : PlayerS := ⟨5.5, 5.5, -1, 0, 0, 0.66, 0.1, 0.05, 1, true⟩

/-- A living enemy 0.3 east of the player — inside the contact radius. -/
noncomputable def enA : EnemyS := ⟨5.8, 5.5, 0.03, 50, false⟩

/-- A living enemy 0.3 south of the player — inside the contact radius. -/
noncomputable def enB : EnemyS := ⟨5.5, 5.8, 0.03, 50, false⟩

/-- A live state with health 1 and two enemies in contact range, on a tick
whose enemy phase runs. -/
noncomputable def g2 : GameS := ⟨p8, [enA, enB], false, 1⟩

/-- Claim C8, counterexample to the claim as stated: from a state with
health 1 (inside the claimed 0–100 range), one tick with two living enemies
simultaneously inside the contact-damage radius ends with health `-1` — the
code has no lower clamp, so health does go negative on the terminal tick. -/
theorem c8_counterexample :
    0 ≤ g2.player.health ∧ g2.player.health ≤ 100 ∧
      (gameUpdate map0 inp0 g2).player.health = -1 := by
  have hvA : vlen (p8.px - enA.x) (p8.py - enA.y) = 0.3 := by
    unfold vlen
    rw [show p8.px - enA.x = -0.3 by norm_num [p8, enA],
      show p8.py - enA.y = 0 by norm_num [p8, enA]]
    rw [show (-0.3:ℝ) * -0.3 + 0 * 0 = 0.09 by norm_num, sqrt009]
  have hvB : vlen (p8.px - enB.x) (p8.py - enB.y) = 0.3 := by
    unfold vlen
    rw [show p8.px - enB.x = 0 by norm_num [p8, enB],
      show p8.py - enB.y = -0.3 by norm_num [p8, enB]]
    rw [show (0:ℝ) * 0 + -0.3 * -0.3 = 0.09 by norm_num, sqrt009]
  have hA : enemyUpdate map0 p8 enA = enA := by
    unfold enemyUpdate
    rw [if_neg (by rw [show enA.isDead = false from rfl]; exact Bool.false_ne_true)]
    rw [if_neg (by rw [hvA]; norm_num)]
  have hB : enemyUpdate map0 p8 enB = enB := by
    unfold enemyUpdate
    rw [if_neg (by rw [show enB.isDead = false from rfl]; exact Bool.false_ne_true)]
    rw [if_neg (by rw [hvB]; norm_num)]
  have hmoved : movedPlayer map0 inp0 g2 = p8 := by
    unfold movedPlayer
    rw [show inp0.captured = false from rfl, show inp0.keyW = false from rfl,
      show inp0.keyS = false from rfl, show inp0.keyA = false from rfl,
      show inp0.keyD = false from rfl,
      condMove_false, condMove_false, condMove_false, condMove_false, condMove_false]
    rfl
  have hphase : (tickPhase map0 inp0 g2).2 = 2 := by
    unfold tickPhase
    rw [if_pos (by decide : (g2.frameCount + 1) % 2 = 0), hmoved]
    show (enemyPhase map0 p8 [enA, enB]).2 = 2
    simp only [enemyPhase]
    rw [hA, hB, hvA, hvB]
    rw [if_pos ⟨by norm_num, rfl⟩, if_pos ⟨by norm_num, rfl⟩]
    norm_num
  refine ⟨by norm_num [g2, p8], by norm_num [g2, p8], ?_⟩
  rw [gameUpdate_player map0 inp0 g2 rfl, tickPlayer_health, hphase]
  norm_num [g2, p8]

/-! Claim C5. -/

/-- Claim C5 (confirmed): on a fire event, if no living enemy passes the
angle/range test the collection is unchanged; and if `i` is the first index
(in collection order) holding a living enemy that passes the test, then the
result replaces exactly that entry by its damaged version (`health -= 10`,
`isDead` set when it drops to or below zero) and leaves every other entry
untouched — the search stops there, so at most one enemy is hit per fire
event even when several qualify simultaneously. -/
theorem c5_first_hit (p : PlayerS) (es : List EnemyS) :
    ((∀ e ∈ es, ¬ shootQual p e) → shootList p es = es) ∧
      (∀ (i : ℕ) (e : EnemyS), es[i]? = some e → shootQual p e →
        (∀ j, j < i → ∀ a, es[j]? = some a → ¬ shootQual p a) →
        shootList p es = es.set i (damageEnemy e)) :=
  ⟨shootList_of_none p es, fun i e hi hq hno => shootList_first p es i e hi hq hno⟩

/-- Player at (5,5) facing west, used by the C5 witness. -/
noncomputable def p2R : PlayerS := ⟨5, 5, -1, 0, 0, 0.66, 0.1, 0.05, 100, true⟩

/-- Living enemy straight ahead at distance 3 — inside cone and range. -/
noncomputable def eA5 : EnemyS := ⟨2, 5, 0.03, 50, false⟩

/-- Living enemy straight ahead at distance 4 — also inside cone and range. -/
noncomputable def eB5 : EnemyS := ⟨1, 5, 0.03, 50, false⟩

/-- Claim C5, witness: both concrete enemies qualify simultaneously
(angle 0 < 0.26, distances 3 and 4 < 8), and firing damages exactly the
first one, leaving the second untouched. -/
theorem c5_first_hit_witness :
    shootQual p2R eA5 ∧ shootQual p2R eB5 ∧
      shootList p2R [eA5, eB5] = [damageEnemy eA5, eB5] := by
  have hvA : vlen (eA5.x - p2R.px) (eA5.y - p2R.py) = 3 := by
    unfold vlen
    rw [show eA5.x - p2R.px = -3 by norm_num [eA5, p2R],
      show eA5.y - p2R.py = 0 by norm_num [eA5, p2R]]
    rw [show (-3:ℝ) * -3 + 0 * 0 = 3 ^ 2 by norm_num, Real.sqrt_sq (by norm_num)]
  have hvB : vlen (eB5.x - p2R.px) (eB5.y - p2R.py) = 4 := by
    unfold vlen
    rw [show eB5.x - p2R.px = -4 by norm_num [eB5, p2R],
      show eB5.y - p2R.py = 0 by norm_num [eB5, p2R]]
    rw [show (-4:ℝ) * -4 + 0 * 0 = 4 ^ 2 by norm_num, Real.sqrt_sq (by norm_num)]
  have hargA : p2R.dx * ((eA5.x - p2R.px) / vlen (eA5.x - p2R.px) (eA5.y - p2R.py)) +
      p2R.dy * ((eA5.y - p2R.py) / vlen (eA5.x - p2R.px) (eA5.y - p2R.py)) = 1 := by
    rw [hvA]
    norm_num [p2R, eA5]
  have hargB : p2R.dx * ((eB5.x - p2R.px) / vlen (eB5.x - p2R.px) (eB5.y - p2R.py)) +
      p2R.dy * ((eB5.y - p2R.py) / vlen (eB5.x - p2R.px) (eB5.y - p2R.py)) = 1 := by
    rw [hvB]
    norm_num [p2R, eB5]
  have hqA : shootQual p2R eA5 := by
    refine ⟨rfl, ?_, ?_⟩
    · show Real.arccos _ < 0.26
      rw [hargA, Real.arccos_one]
      norm_num
    · rw [hvA]; norm_num
  have hqB : shootQual p2R eB5 := by
    refine ⟨rfl, ?_, ?_⟩
    · show Real.arccos _ < 0.26
      rw [hargB, Real.arccos_one]
      norm_num
    · rw [hvB]; norm_num
  have hset := (c5_first_hit p2R [eA5, eB5]).2 0 eA5 (by simp) hqA
    (fun j hj a _ => absurd hj (Nat.not_lt_zero j))
  exact ⟨hqA, hqB, by simpa using hset⟩

/-! Claim C2. -/

/-- Border-walls map with one interior wall cell at (9,5) (the generator may
place interior obstacles anywhere at distance > 3 from the spawn). -/
def map1 : ℤ → ℤ → ℕ := fun x y =>
  if x = 9 ∧ y = 5 then 1
  else if x ≤ 0 ∨ y ≤ 0 ∨ 23 ≤ x ∨ 23 ≤ y then 1 else 0

/-- Player standing just east of the solid cell (9,5), facing west. -/
noncomputable def p1R : PlayerS := ⟨10.04, 5.5, -1, 0, 0, 0.66, 0.1, 0.05, 100, true⟩

/-- Claim C2, counterexample to the claim as stated: moving forward
(`forward = 1`) while facing west, the candidate x is `9.94` (travelling in
the negative x direction), but the wall buffer is applied in the POSITIVE
direction because it follows the sign of the `forward` input: the test reads
cell `int(9.94 + 0.1) = 10` (passable) instead of the destination cell 9
(solid), so the committed position `(9.94, 5.5)` lies inside the solid
cell (9,5). -/
theorem c2_counterexample :
    ¬ inSolid map1 p1R.px p1R.py ∧
      inSolid map1 (movePlayer map1 1 0 p1R).px (movePlayer map1 1 0 p1R).py := by
  have ht1 : rtrunc (10.04:ℝ) = 10 := rtrunc_eval _ _ (by norm_num) (by norm_num) (by norm_num)
  have ht2 : rtrunc (5.5:ℝ) = 5 := rtrunc_eval _ _ (by norm_num) (by norm_num) (by norm_num)
  have ht3 : rtrunc (9.94:ℝ) = 9 := rtrunc_eval _ _ (by norm_num) (by norm_num) (by norm_num)
  have ht4 : rtrunc (5.6:ℝ) = 5 := rtrunc_eval _ _ (by norm_num) (by norm_num) (by norm_num)
  have hnx : moveNewX 1 0 p1R = 9.94 := by
    unfold moveNewX
    rw [if_pos (by norm_num : (1:ℝ) ≠ 0), if_neg (by norm_num : ¬ ((0:ℝ) ≠ 0))]
    norm_num [p1R]
  have hny : moveNewY 1 0 p1R = 5.5 := by
    unfold moveNewY
    rw [if_pos (by norm_num : (1:ℝ) ≠ 0), if_neg (by norm_num : ¬ ((0:ℝ) ≠ 0))]
    norm_num [p1R]
  have hbuf : moveBuf 1 = 0.1 := by
    unfold moveBuf
    rw [if_pos (by norm_num : (0:ℝ) < 1)]
  have hcx : moveCommitX map1 1 0 p1R = 9.94 := by
    unfold moveCommitX
    rw [hnx, hbuf, show (9.94:ℝ) + 0.1 = 10.04 by norm_num, ht1,
      show p1R.py = (5.5:ℝ) from rfl, ht2]
    rw [if_pos (by decide : map1 10 5 = 0)]
  have hcy : moveCommitY map1 1 0 p1R = 5.5 := by
    unfold moveCommitY
    rw [hcx, hny, hbuf, show (5.5:ℝ) + 0.1 = 5.6 by norm_num, ht3, ht4]
    rw [if_neg (by decide : ¬ (map1 9 5 = 0))]
    rfl
  constructor
  · unfold inSolid
    rw [show p1R.px = (10.04:ℝ) from rfl, show p1R.py = (5.5:ℝ) from rfl, ht1, ht2]
    rw [not_not]
    decide
  · unfold inSolid
    rw [movePlayer_px, movePlayer_py, hcx, hcy, ht3, ht2]
    decide

/-- Claim C2 (amended): enemy movement never enters a solid cell on either
axis (each enemy axis test is exactly the destination cell, with no buffer);
player movement never enters a solid cell PROVIDED each axis's actual travel
direction matches the sign of the `forward` input, which is what selects the
buffer direction — without that proviso the buffered test can look at the
wrong cell (see the counterexample). -/
theorem c2_no_wall_entry :
    (∀ (map : ℤ → ℤ → ℕ) (p : PlayerS) (e : EnemyS), ¬ inSolid map e.x e.y →
      ¬ inSolid map (enemyUpdate map p e).x (enemyUpdate map p e).y) ∧
    (∀ (map : ℤ → ℤ → ℕ) (fw st : ℝ) (p : PlayerS), ¬ inSolid map p.px p.py →
      1 ≤ p.px → 1 ≤ p.py → dirMatch fw (moveNewX fw st p - p.px) →
      dirMatch fw (moveNewY fw st p - p.py) →
      ¬ inSolid map (movePlayer map fw st p).px (movePlayer map fw st p).py) :=
  ⟨fun map p e h => enemyUpdate_not_inSolid map p e h,
    fun map fw st p h h1 h2 hm1 hm2 => movePlayer_not_inSolid map fw st p h h1 h2 hm1 hm2⟩

/-- Claim C2, witness: in the border-walls map, a live enemy at (5.8, 5.5)
stays out of solid cells after its update, and a forward move of the player
facing east (travel direction matching the forward sign) stays out of solid
cells. -/
theorem c2_no_wall_entry_witness :
    (¬ inSolid map0 enA.x enA.y ∧
      ¬ inSolid map0 (enemyUpdate map0 pw enA).x (enemyUpdate map0 pw enA).y) ∧
    (¬ inSolid map0 pw.px pw.py ∧
      ¬ inSolid map0 (movePlayer map0 1 0 pw).px (movePlayer map0 1 0 pw).py) := by
  have ht58 : rtrunc (5.8:ℝ) = 5 := rtrunc_eval _ _ (by norm_num) (by norm_num) (by norm_num)
  have ht55 : rtrunc (5.5:ℝ) = 5 := rtrunc_eval _ _ (by norm_num) (by norm_num) (by norm_num)
  have he0 : ¬ inSolid map0 enA.x enA.y := by
    unfold inSolid
    rw [show enA.x = (5.8:ℝ) from rfl, show enA.y = (5.5:ℝ) from rfl, ht58, ht55, not_not]
    decide
  have hp0 : ¬ inSolid map0 pw.px pw.py := by
    unfold inSolid
    rw [show pw.px = (5.5:ℝ) from rfl, show pw.py = (5.5:ℝ) from rfl, ht55, not_not]
    decide
  have hnx : moveNewX 1 0 pw = 5.6 := by
    unfold moveNewX
    rw [if_pos (by norm_num : (1:ℝ) ≠ 0), if_neg (by norm_num : ¬ ((0:ℝ) ≠ 0))]
    norm_num [pw]
  have hny : moveNewY 1 0 pw = 5.5 := by
    unfold moveNewY
    rw [if_pos (by norm_num : (1:ℝ) ≠ 0), if_neg (by norm_num : ¬ ((0:ℝ) ≠ 0))]
    norm_num [pw]
  have hm1 : dirMatch 1 (moveNewX 1 0 pw - pw.px) := by
    unfold dirMatch
    rw [if_pos (by norm_num : (0:ℝ) < 1), hnx, show pw.px = (5.5:ℝ) from rfl]
    norm_num
  have hm2 : dirMatch 1 (moveNewY 1 0 pw - pw.py) := by
    unfold dirMatch
    rw [if_pos (by norm_num : (0:ℝ) < 1), hny, show pw.py = (5.5:ℝ) from rfl]
    norm_num
  exact ⟨⟨he0, c2_no_wall_entry.1 map0 pw enA he0⟩,
    ⟨hp0, c2_no_wall_entry.2 map0 1 0 pw hp0 (by norm_num [pw]) (by norm_num [pw]) hm1 hm2⟩⟩

/-! Claim C9. -/

/-- Camera at (5.5, 5.5) facing straight down `-y`; at view column 100
(`cameraX = 0`) the ray is exactly `(0, -1)`. -/
def pose5 : PoseQ := ⟨5.5, 5.5, 0, -1, -0.66, 0⟩

lemma colRay_pose5 : colRay pose5 100 = (0, -1) := by
  norm_num [colRay, colCameraX, pose5]

lemma ddaInit_pose5 : ddaInit pose5 (0, -1) =
    (⟨1, -1, bigDelta, 1⟩, ⟨5, 5, 5 * 10 ^ 29, 1/2⟩) := by
  norm_num [ddaInit, ratTrunc, bigDelta]
  norm_num [pose5]

/-- The ray `(0, -1)` from (5.5, 5.5) walks five y-steps and hits the
south border wall cell (5, 0); the hit is a side-1 hit with
`sideDistY = 11/2`. -/
lemma colHit_pose5 : colHit map0 pose5 100 = some (true, ⟨5, 0, 5 * 10 ^ 29, 11/2⟩) := by
  unfold colHit ddaRun
  rw [colRay_pose5, ddaInit_pose5]
  show ddaGo map0 ⟨1, -1, bigDelta, 1⟩ 64 ⟨5, 5, 5 * 10 ^ 29, 1/2⟩ = _
  rw [show (64:ℕ) = 63 + 1 by norm_num, ddaGoStep]
  norm_num [map0, bigDelta]
  rw [show (63:ℕ) = 62 + 1 by norm_num, ddaGoStep]
  norm_num [map0, bigDelta]
  rw [show (62:ℕ) = 61 + 1 by norm_num, ddaGoStep]
  norm_num [map0, bigDelta]
  rw [show (61:ℕ) = 60 + 1 by norm_num, ddaGoStep]
  norm_num [map0, bigDelta]
  rw [show (60:ℕ) = 59 + 1 by norm_num, ddaGoStep]
  norm_num [map0, bigDelta]

lemma colPerp_pose5 : colPerp map0 pose5 100 = 9/2 := by
  unfold colPerp colPerpRaw
  rw [colHit_pose5]
  simp only [colRay_pose5, ddaInit_pose5]
  norm_num

lemma colTexRaw_pose5 : colTexRaw map0 pose5 100 = 32 := by
  unfold colTexRaw colWallX
  rw [colHit_pose5]
  simp only [colPerp_pose5, colRay_pose5]
  norm_num [pose5, ratTrunc]

/-- Claim C9, counterexample to the claim as stated: the side-1 hit of the
ray `(0, -1)` (travelling in the NEGATIVE y direction) IS mirrored by the
code (`texX = 64 - 32 - 1 = 31`), while the spec's rule — mirror exactly
when the ray travels in the positive direction on the hit axis — would
leave it unmirrored (`texX = 32`). -/
theorem c9_counterexample :
    colTexX map0 pose5 100 = 31 ∧ colTexXSpec map0 pose5 100 = 32 := by
  constructor
  · unfold colTexX
    rw [colHit_pose5]
    simp only [colTexRaw_pose5, colRay_pose5]
    norm_num
  · unfold colTexXSpec
    rw [colHit_pose5]
    simp only [colTexRaw_pose5, colRay_pose5]
    norm_num

/-- Claim C9 (amended): for every wall hit, the horizontal texture
coordinate is the fractional-hit-position coordinate `colTexRaw`, mirrored
exactly when the ray travels in the POSITIVE x direction for a side-0
(x-stepped) hit, and in the NEGATIVE y direction for a side-1 (y-stepped)
hit. -/
theorem c9_texture_mirror (map : ℤ → ℤ → ℕ) (p : PoseQ) (x : ℕ) (side : Bool)
    (s : DDASt) (h : colHit map p x = some (side, s)) :
    colTexX map p x =
      if (side = false ∧ 0 < (colRay p x).1) ∨ (side = true ∧ (colRay p x).2 < 0)
      then 64 - colTexRaw map p x - 1 else colTexRaw map p x := by
  unfold colTexX
  rw [h]
  cases side with
  | false =>
    by_cases hr : 0 < (colRay p x).1 <;> simp [hr]
  | true =>
    by_cases hr : (colRay p x).2 < 0 <;> simp [hr]

/-- Claim C9, witness: the amended mirroring rule evaluated on the concrete
side-1 hit of `pose5` at view column 100. -/
theorem c9_texture_mirror_witness :
    colHit map0 pose5 100 = some (true, ⟨5, 0, 5 * 10 ^ 29, 11/2⟩) ∧
      colTexX map0 pose5 100 =
        (if ((true : Bool) = false ∧ 0 < (colRay pose5 100).1) ∨
            ((true : Bool) = true ∧ (colRay pose5 100).2 < 0)
         then 64 - colTexRaw map0 pose5 100 - 1 else colTexRaw map0 pose5 100) :=
  ⟨colHit_pose5, c9_texture_mirror map0 pose5 100 true _ colHit_pose5⟩

/-! Claim C1. -/

/-- Camera at the origin facing east with the standard plane. -/
def pose1 : PoseQ := ⟨0, 0, 1, 0, 0, 0.66⟩

/-- Sprite world position for the C1 counterexample: depth 1.99 (large
enough to trigger the coarse 2-pixel step), offset sideways so the sampled
columns are even and the clipped rectangle ends at the screen edge. -/
def ex1 : ℚ := 1.99

def ey1 : ℚ := 1.28139

/-- Depth buffer holding a far wall (100) at column 700 and a near wall (1,
closer than the sprite's depth 1.99) everywhere else — in particular at
column 701. -/
def zB1 : ℤ → ℚ := fun c => if c = 700 then 100 else 1

lemma htX1 : transfX pose1 ex1 ey1 = 3883/2000 := by
  norm_num [transfX, pose1, ex1, ey1]

lemma htY1 : transfY pose1 ex1 ey1 = 199/100 := by
  norm_num [transfY, pose1, ex1, ey1]

lemma hsize1 : sprSize (199/100) = 301 := by
  norm_num [sprSize, ratTrunc]

lemma hH1 : sprH (199/100) = 301 := by
  unfold sprH
  rw [hsize1]
  norm_num

lemma hW1 : sprW (199/100) = 301 := by
  unfold sprW
  rw [hsize1]
  norm_num

lemma hscr1 : sprScreenX (3883/2000) (199/100) = 790 := by
  norm_num [sprScreenX, ratTrunc]

lemma hL1 : sprLeft (3883/2000) (199/100) = 640 := by
  unfold sprLeft
  rw [hW1, hscr1]
  decide

lemma hDSY1 : sprDSY (199/100) = 150 := by
  unfold sprDSY
  rw [hH1]
  decide

lemma hDEY1 : sprDEY (199/100) = 450 := by
  unfold sprDEY
  rw [hH1]
  decide

lemma hDSX1 : sprDSX (3883/2000) (199/100) = 640 := by
  unfold sprDSX
  rw [hL1]
  decide

lemma hDEX1 : sprDEX (3883/2000) (199/100) = 799 := by
  unfold sprDEX
  rw [hW1, hscr1]
  decide

lemma hstep1 : sprStep (199/100) = 2 := by
  unfold sprStep
  rw [hH1]
  norm_num

lemma htexel1 : sprTexel (3883/2000) (199/100) 700 302 = 0xFFFF0000 := by
  unfold sprTexel sprTexX sprTexY
  rw [hL1, hW1, hDSY1, hH1]
  decide

/-- Claim C1, counterexample to the claim as stated: the sprite's depth
(1.99) exceeds the wall depth stored at column 701 (1), yet the sprite
renderer writes an opaque sprite pixel into the frame buffer at column 701 —
it is the coarse-step backfill duplicate of the sample taken at column 700,
whose depth test consulted only `zBuffer[700]` (= 100). -/
theorem c1_counterexample :
    zB1 701 < transfY pose1 ex1 ey1 ∧
      ((701:ℤ), (302:ℤ), (0xFFFF0000:ℕ)) ∈ spriteWrites pose1 ex1 ey1 zB1 := by
  constructor
  · rw [htY1]
    norm_num [zB1]
  · unfold spriteWrites
    rw [htX1, htY1]
    rw [if_neg (by norm_num)]
    rw [if_neg (by rw [hDEX1, hDSX1]; norm_num)]
    rw [hDSX1, hDEX1, hstep1]
    refine List.mem_flatMap.mpr ⟨700, ?_, ?_⟩
    · unfold loopIdx
      refine List.mem_map.mpr ⟨30, ?_, by decide⟩
      decide
    · unfold colWrites
      rw [if_neg (by decide)]
      rw [if_neg (by norm_num [zB1])]
      rw [hDSY1, hDEY1, hstep1]
      refine List.mem_flatMap.mpr ⟨302, ?_, ?_⟩
      · unfold loopIdx
        refine List.mem_map.mpr ⟨76, ?_, by decide⟩
        decide
      · unfold rowWrites
        rw [if_neg (by decide)]
        rw [htexel1]
        rw [if_pos (by decide)]
        rw [hstep1, if_pos (by norm_num), hDEX1, hDEY1]
        rw [if_pos (by decide), if_pos (by decide), if_pos (by decide)]
        decide

/-- Claim C1 (amended): a sprite pixel can reach column `cx` only as the
direct sample of `cx` or as the coarse-step backfill of the sample at
`cx - 1`, each guarded by the depth test of ITS OWN sampled column; hence if
the sprite's transformed depth exceeds the stored wall depth at BOTH column
`cx` and column `cx - 1`, no pixel of the sprite is written at column `cx`.
The claim's stronger guarantee — occlusion from the depth at `cx` alone,
including backfill writes — is refuted by the counterexample. -/
theorem c1_occlusion (p : PoseQ) (ex ey : ℚ) (zB : ℤ → ℚ) (cx : ℤ)
    (h1 : zB cx < transfY p ex ey) (h2 : zB (cx - 1) < transfY p ex ey) :
    ∀ (cy : ℤ) (c : ℕ), ((cx, cy, c) : ℤ × ℤ × ℕ) ∉ spriteWrites p ex ey zB := by
  intro cy c hmem
  obtain ⟨x, hle, hcol⟩ := spriteWrites_from_sampled p ex ey zB _ hmem
  rcases hcol with h | h
  · have h' : cx = x := h
    rw [← h'] at hle
    linarith
  · have h' : cx = x + 1 := h
    have hx : x = cx - 1 := by omega
    rw [hx] at hle
    linarith

/-- Claim C1, witness: with a near wall at every column, the sprite of the
counterexample is fully occluded at column 701 — no write lands there. -/
theorem c1_occlusion_witness :
    (fun _ : ℤ => (1:ℚ)) 701 < transfY pose1 ex1 ey1 ∧
      ∀ (cy : ℤ) (c : ℕ),
        ((701:ℤ), cy, c) ∉ spriteWrites pose1 ex1 ey1 (fun _ => 1) := by
  constructor
  · rw [htY1]
    norm_num
  · exact fun cy c => c1_occlusion pose1 ex1 ey1 (fun _ => 1) 701
      (by rw [htY1]; norm_num) (by rw [htY1]; norm_num) cy c
